import Mathlib

/-! Bitcoin_miner.cpp : candidate filter, key encoding, range partition, worker loop

A shallow embedding of `src/Bitcoin_miner.cpp`.  `std::string` is `List Char`,
`uint64_t` is `Nat` reduced modulo `2^64` at every arithmetic step, the
elliptic-curve / hash pipeline of `process_key` is an abstract function from the
key string to the hex digest string.
-/

namespace BitcoinMiner

/-! ## Machine integers -/

/-- The modulus of `uint64_t` arithmetic. -/
def U64 : Nat := 2 ^ 64

/-- The character returned for an index that holds no character (never reached
by the code once the length check has passed). -/
def NUL : Char := Char.ofNat 0

/-- `s[i]` on a `std::string`. -/
def at_ (s : List Char) (i : Nat) : Char := s.getD i NUL

/-! ## `is_valid_key` (lines 38-62) -/

/-- The loop of lines 42-44, `for (int i = 0; i < 46; ++i)`: the first argument
counts the iterations left, the second is `i`. -/
def prefix_loop (key_hex : List Char) : Nat → Nat → Bool
  | 0, _ => true
  | n + 1, i => if at_ key_hex i != '0' then false else prefix_loop key_hex n (i + 1)

/-- The condition of lines 55-56 at position `i` of `last_17`. -/
def run_at (last_17 : List Char) (i : Nat) : Bool :=
  at_ last_17 i == at_ last_17 (i + 1) && at_ last_17 i == at_ last_17 (i + 2) &&
    at_ last_17 i == at_ last_17 (i + 3) && at_ last_17 i == at_ last_17 (i + 4)

/-- The loop of lines 54-59, `for (size_t i = 0; i < last_17.length() - 4; ++i)`:
the first argument counts the iterations left, the second is `i`. -/
def run_loop (last_17 : List Char) : Nat → Nat → Bool
  | 0, _ => true
  | n + 1, i => if run_at last_17 i then false else run_loop last_17 n (i + 1)

/-- The function `is_valid_key`.  `substr(47)` is `List.drop 47`; the loop bound
`last_17.length() - 4` is computed in `size_t`. -/
def is_valid_key (key_hex : List Char) : Bool :=
  if key_hex.length != 64 then false
  else if !prefix_loop key_hex 46 0 then false
  else
    let first_char := at_ key_hex 46
    if first_char != '4' && first_char != '5' && first_char != '6' && first_char != '7' then
      false
    else
      let last_17 := key_hex.drop 47
      run_loop last_17 ((last_17.length + U64 - 4) % U64) 0

/-! ### Instrumented copy of `is_valid_key`

The same statements in the same order, with a log of the indices of `key_hex`
that have been read (`last_17[i]` is logged as `47 + i`, the character of
`key_hex` it is a copy of; `&&` reads its right operand only when the left one
is true). -/

/-- Lines 42-44 with the read log. -/
def prefix_loop_reads (key_hex : List Char) : Nat → Nat → List Nat → Bool × List Nat
  | 0, _, log => (true, log)
  | n + 1, i, log =>
    if at_ key_hex i != '0' then (false, log ++ [i])
    else prefix_loop_reads key_hex n (i + 1) (log ++ [i])

/-- Lines 55-56 with the read log. -/
def run_at_reads (last_17 : List Char) (i : Nat) (log : List Nat) : Bool × List Nat :=
  let log1 := log ++ [47 + i, 47 + (i + 1)]
  if at_ last_17 i == at_ last_17 (i + 1) then
    let log2 := log1 ++ [47 + i, 47 + (i + 2)]
    if at_ last_17 i == at_ last_17 (i + 2) then
      let log3 := log2 ++ [47 + i, 47 + (i + 3)]
      if at_ last_17 i == at_ last_17 (i + 3) then
        (at_ last_17 i == at_ last_17 (i + 4), log3 ++ [47 + i, 47 + (i + 4)])
      else (false, log3)
    else (false, log2)
  else (false, log1)

/-- Lines 54-59 with the read log. -/
def run_loop_reads (last_17 : List Char) : Nat → Nat → List Nat → Bool × List Nat
  | 0, _, log => (true, log)
  | n + 1, i, log =>
    let r := run_at_reads last_17 i log
    if r.1 then (false, r.2) else run_loop_reads last_17 n (i + 1) r.2

/-- The function `is_valid_key` with the read log, started empty. -/
def is_valid_key_reads (key_hex : List Char) : Bool × List Nat :=
  if key_hex.length != 64 then (false, [])
  else
    let p := prefix_loop_reads key_hex 46 0 []
    if !p.1 then (false, p.2)
    else
      let first_char := at_ key_hex 46
      let log := p.2 ++ [46]
      if first_char != '4' && first_char != '5' && first_char != '6' && first_char != '7' then
        (false, log)
      else
        let last_17 := key_hex.drop 47
        run_loop_reads last_17 ((last_17.length + U64 - 4) % U64) 0 log

/-! ### The checks of `is_valid_key` as propositions -/

/-- Five equal characters at positions `i .. i+4` of `s`. -/
def five_equal (s : List Char) (i : Nat) : Prop :=
  at_ s i = at_ s (i + 1) ∧ at_ s i = at_ s (i + 2) ∧ at_ s i = at_ s (i + 3) ∧
    at_ s i = at_ s (i + 4)

instance (s : List Char) (i : Nat) : Decidable (five_equal s i) := by
  unfold five_equal; infer_instance

/-- The four checks of `is_valid_key`, as a proposition on the string. -/
def four_checks (s : List Char) : Prop :=
  s.length = 64 ∧ (∀ i, i < 46 → at_ s i = '0') ∧
    (at_ s 46 = '4' ∨ at_ s 46 = '5' ∨ at_ s 46 = '6' ∨ at_ s 46 = '7') ∧
    ∀ i, 47 ≤ i → i ≤ 59 → ¬ five_equal s i

/-! ## Hexadecimal digits -/

/-- A lowercase hexadecimal digit, as `std::hex` prints them. -/
def is_lower_hex (c : Char) : Bool :=
  ('0' ≤ c && c ≤ '9') || ('a' ≤ c && c ≤ 'f')

/-- A 64-character key whose only run of five equal characters is the last
possible one, at positions 59..63. -/
def key_run_at_59 : List Char :=
  "000000000000000000000000000000000000000000000040123456789abccccc".toList

/-! ## Unsigned 64-bit arithmetic -/

/-- The sum `a + b` in `uint64_t`. -/
def add64 (a b : Nat) : Nat := (a + b) % U64

/-- The difference `a - b` in `uint64_t` (operands below `2^64`). -/
def sub64 (a b : Nat) : Nat := (a + U64 - b) % U64

/-- The product `a * b` in `uint64_t`. -/
def mul64 (a b : Nat) : Nat := (a * b) % U64

/-! ## The partition computed in `main` (lines 166-176)

`START_RANGE`, `END_RANGE` and `NUM_THREADS` are parameters `S`, `E`, `N`; the
`int` operands `NUM_THREADS` and `i` are converted to `uint64_t` where they meet
a `uint64_t` operand. -/

/-- Line 166: `(END_RANGE - START_RANGE) / NUM_THREADS` (for `N` not 0). -/
def range_per_thread (S E N : Nat) : Nat :=
  sub64 E S / (N % U64)

/-- Line 173: `START_RANGE + i * range_per_thread`. -/
def thread_start (S E N i : Nat) : Nat :=
  add64 S (mul64 (i % U64) (range_per_thread S E N))

/-- Line 174: `(i == NUM_THREADS - 1) ? END_RANGE : start + range_per_thread - 1`;
the comparison is between `int`s. -/
def thread_end (S E N i : Nat) : Nat :=
  if (i : Int) = (N : Int) - 1 then E
  else sub64 (add64 (thread_start S E N i) (range_per_thread S E N)) 1

/-- The pair `(start, end)` passed to worker `i`. -/
def thread_range (S E N i : Nat) : Nat × Nat :=
  (thread_start S E N i, thread_end S E N i)

/-- The value `c` lies in the set `{c | start ≤ c ≤ end}` of the pair `r`. -/
def scans (r : Nat × Nat) (c : Nat) : Prop := r.1 ≤ c ∧ c ≤ r.2

instance (r : Nat × Nat) (c : Nat) : Decidable (scans r c) := by
  unfold scans; infer_instance

/-- A thread started by `main`. -/
inductive Thread where
  | monitor : Thread
  | worker (start end_ : Nat) : Thread
  deriving DecidableEq

/-- What `main` has done when the loop of lines 172-176 is over: it has
refused the configuration, or run into undefined behaviour, or started the
listed threads (in order). -/
inductive Startup where
  | rejected : Startup
  | undefined : Startup
  | started (threads : List Thread) : Startup
  deriving DecidableEq

/-- The loop of lines 172-176, `for (int i = 0; i < NUM_THREADS; ++i)`: the
first argument counts the iterations left, the second is `i`, the third the
threads started so far. -/
def spawn_loop (S E N : Nat) : Nat → Nat → List Thread → List Thread
  | 0, _, threads => threads
  | n + 1, i, threads =>
    spawn_loop S E N n (i + 1)
      (threads ++ [Thread.worker (thread_start S E N i) (thread_end S E N i)])

/-- Lines 166-176 of `main`: the division, the start of the monitor, the loop
that starts the workers.  A division by zero is undefined behaviour; no
statement of `main` refuses a configuration. -/
def main_startup (S E N : Nat) : Startup :=
  if N % U64 = 0 then Startup.undefined
  else Startup.started (spawn_loop S E N N 0 [Thread.monitor])

/-! ## The key string of the worker (lines 115-117)

`ss << std::hex << std::setfill('0') << std::setw(64) << current` -/

/-- The digit `d < 16` as `std::hex` prints it. -/
def hex_char (d : Nat) : Char :=
  match d with
  | 0 => '0' | 1 => '1' | 2 => '2' | 3 => '3' | 4 => '4' | 5 => '5' | 6 => '6' | 7 => '7'
  | 8 => '8' | 9 => '9' | 10 => 'a' | 11 => 'b' | 12 => 'c' | 13 => 'd' | 14 => 'e'
  | _ => 'f'

/-- The hexadecimal digits of `n`, most significant first, with no leading zero
and at least one digit: the unpadded output of `<<` for an unsigned value under
`std::hex`.  The first argument bounds the number of digits (16 for 64 bits). -/
def hex_digits : Nat → Nat → List Char
  | 0, _ => []
  | k + 1, n => if n < 16 then [hex_char n] else hex_digits k (n / 16) ++ [hex_char (n % 16)]

/-- The effect of `std::setw(w)` and `std::setfill(fill)` on the next output:
padding on the left up to `w` characters. -/
def setw_fill (w : Nat) (fill : Char) (s : List Char) : List Char :=
  List.replicate (w - s.length) fill ++ s

/-- The string `key_hex` built from the 64-bit counter `current`. -/
def key_hex_of (current : Nat) : List Char :=
  setw_fill 64 '0' (hex_digits 16 current)

/-- The value of a hexadecimal digit (0 for any other character). -/
def hex_val (c : Char) : Nat :=
  if c = '0' then 0 else if c = '1' then 1 else if c = '2' then 2 else if c = '3' then 3
  else if c = '4' then 4 else if c = '5' then 5 else if c = '6' then 6
  else if c = '7' then 7 else if c = '8' then 8 else if c = '9' then 9
  else if c = 'a' then 10 else if c = 'b' then 11 else if c = 'c' then 12
  else if c = 'd' then 13 else if c = 'e' then 14 else if c = 'f' then 15 else 0

/-- The number a string of hexadecimal digits denotes, most significant digit
first. -/
def hex_value (s : List Char) : Nat :=
  s.foldl (fun acc ch => 16 * acc + hex_val ch) 0

/-! ## Configuration, shared state, `process_key`, `worker` -/

/-- The constants of lines 15-18 as parameters, and the digest computation of
`process_key` (lines 66-97: the curve point of the key, its compressed encoding,
SHA-256, RIPEMD-160, `bytes_to_hex`) as a function from `key_hex` to
`result_hash`. -/
structure Config where
  /-- The constant `TARGET_HASH`. -/
  TARGET_HASH : List Char
  /-- The constant `START_RANGE`, a `uint64_t`. -/
  START_RANGE : Nat
  /-- The constant `END_RANGE`, a `uint64_t`. -/
  END_RANGE : Nat
  /-- The constant `NUM_THREADS`, a non-negative `int`. -/
  NUM_THREADS : Nat
  /-- The string `result_hash` that `process_key` computes from `key_hex`. -/
  result_hash : List Char → List Char

/-- A line written to `std::cout` (the banner of lines 160-162 is left out; of
the progress line only the count is kept). -/
inductive Output where
  | found_key (key_hex : List Char) : Output
  | progress (count : Nat) : Output
  | not_found : Output
  deriving DecidableEq

/-- The globals `total_checked` and `found` (lines 23-24) and the console. -/
structure Shared where
  /-- The atomic counter `total_checked`. -/
  total_checked : Nat
  /-- The atomic flag `found`. -/
  found : Bool
  /-- What has been written to `std::cout`, oldest first. -/
  out : List Output
  deriving DecidableEq

/-- The globals at program start. -/
def Shared.init : Shared := ⟨0, false, []⟩

/-- The function `process_key`: lines 96-102 after the digest computation. -/
def process_key (cfg : Config) (key_hex : List Char) (g : Shared) : Shared :=
  if cfg.result_hash key_hex = cfg.TARGET_HASH then
    { g with out := g.out ++ [Output.found_key key_hex], found := true }
  else g

/-- The locals `current` and `local_checked` of `worker`. -/
structure WorkerState where
  /-- The local `current`. -/
  current : Nat
  /-- The local `local_checked`. -/
  local_checked : Nat
  deriving DecidableEq

/-- The loop condition of line 114, `current <= end && !found`. -/
def worker_guard (end_ : Nat) (w : WorkerState) (g : Shared) : Bool :=
  decide (w.current ≤ end_) && !g.found

/-- Lines 115-121: build `key_hex`, filter it, process it when accepted. -/
def worker_check (cfg : Config) (w : WorkerState) (g : Shared) : Shared :=
  let key_hex := key_hex_of w.current
  if is_valid_key key_hex then process_key cfg key_hex g else g

/-- Lines 123-129: advance the counters, publish a full batch. -/
def worker_count (w : WorkerState) (g : Shared) : WorkerState × Shared :=
  let current := add64 w.current 1
  let local_checked := add64 w.local_checked 1
  if local_checked % 10000 = 0 then
    (⟨current, 0⟩, { g with total_checked := add64 g.total_checked 10000 })
  else (⟨current, local_checked⟩, g)

/-- One execution of the loop body, lines 115-129. -/
def worker_body (cfg : Config) (w : WorkerState) (g : Shared) : WorkerState × Shared :=
  worker_count w (worker_check cfg w g)

/-- The loop of lines 114-130, run alone.  The first argument bounds the number
of evaluations of the loop condition; `none` when the bound is reached with the
loop still running. -/
def worker_loop (cfg : Config) (end_ : Nat) : Nat → WorkerState → Shared →
    Option (WorkerState × Shared)
  | 0, _, _ => none
  | fuel + 1, w, g =>
    if worker_guard end_ w g then
      worker_loop cfg end_ fuel (worker_body cfg w g).1 (worker_body cfg w g).2
    else some (w, g)

/-- The function `worker(start, end)`, run alone on the globals `g`. -/
def worker (cfg : Config) (fuel start end_ : Nat) (g : Shared) :
    Option (WorkerState × Shared) :=
  worker_loop cfg end_ fuel ⟨start, 0⟩ g

/-- The state after `n` executions of the loop body, the loop condition not
looked at. -/
def worker_iter (cfg : Config) : Nat → WorkerState × Shared → WorkerState × Shared
  | 0, r => r
  | n + 1, r => worker_iter cfg n (worker_body cfg r.1 r.2)

/-- A configuration whose digest function is constant; the ranges are not
used by `worker`. -/
def cfg_any : Config :=
  ⟨"f6f5431d25bbf7b12e8add9af5e3475c44a0a5b8".toList, 0, 0, 1, fun _ => []⟩

/-! ## The threads of the program, interleaved

A state of the whole program and one step of one thread.  A step of a worker
is one evaluation of its loop condition, or lines 115-121 of its loop body, or
lines 123-129; a step of the monitor is one evaluation of its loop condition, or
one execution of its loop body; a thread that cannot move (a `join` whose thread
still runs, a thread not yet started or over) leaves the state as it is. -/

/-- Where `main` stands. -/
inductive MainPc where
  /-- Before the division of line 166. -/
  | line_166 : MainPc
  /-- The monitor is started (line 169); at the head of the loop of line 172
  with this value of `i`. -/
  | spawning (i : Nat) : MainPc
  /-- In the loop of lines 179-181, about to join the thread with this index. -/
  | joining (k : Nat) : MainPc
  /-- At `monitor.join()`, line 183. -/
  | join_monitor : MainPc
  /-- Past `monitor.join()`, at the test of line 185. -/
  | report : MainPc
  /-- At `return 0`, line 189. -/
  | returned : MainPc
  /-- After a division by zero at line 166. -/
  | undefined : MainPc
  deriving DecidableEq

/-- Where `progress_monitor` stands. -/
inductive MonitorPc where
  /-- At the loop condition of line 138. -/
  | at_guard : MonitorPc
  /-- In the loop body, lines 139-155. -/
  | in_body : MonitorPc
  /-- The function has returned. -/
  | stopped : MonitorPc
  deriving DecidableEq

/-- Where a `worker` stands. -/
inductive WorkerPc where
  /-- At the loop condition of line 114. -/
  | at_guard : WorkerPc
  /-- Before lines 115-121. -/
  | at_check : WorkerPc
  /-- Before lines 123-129. -/
  | at_count : WorkerPc
  /-- The function has returned. -/
  | stopped : WorkerPc
  deriving DecidableEq

/-- A running `worker(start, end)`: its argument `end`, its locals (with
`current` starting at `start`), its position. -/
structure WorkerThread where
  /-- The argument `end`. -/
  end_ : Nat
  /-- The locals `current` and `local_checked`. -/
  locals : WorkerState
  /-- The position in `worker`. -/
  pc : WorkerPc
  deriving DecidableEq

/-- The state of the program. -/
structure System where
  /-- The position of `main`. -/
  main : MainPc
  /-- The position of the monitor thread, once started. -/
  monitor : Option MonitorPc
  /-- The local `last_count` of `progress_monitor`. -/
  last_count : Nat
  /-- The vector `threads`. -/
  threads : List WorkerThread
  /-- The globals and the console. -/
  shared : Shared
  deriving DecidableEq

/-- The state when `main` is entered. -/
def System.init : System := ⟨MainPc.line_166, none, 0, [], Shared.init⟩

/-- A thread of the program. -/
inductive Tid where
  | main : Tid
  | monitor : Tid
  | worker (i : Nat) : Tid
  deriving DecidableEq

/-- One step of `main`, lines 166-189. -/
def main_step (cfg : Config) (s : System) : System :=
  match s.main with
  | MainPc.line_166 =>
    if cfg.NUM_THREADS % U64 = 0 then { s with main := MainPc.undefined }
    else { s with main := MainPc.spawning 0, monitor := some MonitorPc.at_guard }
  | MainPc.spawning i =>
    if i < cfg.NUM_THREADS then
      { s with
        main := MainPc.spawning (i + 1)
        threads := s.threads ++
          [⟨thread_end cfg.START_RANGE cfg.END_RANGE cfg.NUM_THREADS i,
            ⟨thread_start cfg.START_RANGE cfg.END_RANGE cfg.NUM_THREADS i, 0⟩,
            WorkerPc.at_guard⟩] }
    else { s with main := MainPc.joining 0 }
  | MainPc.joining k =>
    match s.threads.get? k with
    | none => { s with main := MainPc.join_monitor }
    | some t => if t.pc = WorkerPc.stopped then { s with main := MainPc.joining (k + 1) } else s
  | MainPc.join_monitor =>
    if s.monitor = some MonitorPc.stopped then { s with main := MainPc.report } else s
  | MainPc.report =>
    if !s.shared.found then
      { s with
        main := MainPc.returned
        shared := { s.shared with out := s.shared.out ++ [Output.not_found] } }
    else { s with main := MainPc.returned }
  | MainPc.returned => s
  | MainPc.undefined => s

/-- One step of `progress_monitor`, lines 138-156. -/
def monitor_step (s : System) : System :=
  match s.monitor with
  | some MonitorPc.at_guard =>
    if !s.shared.found then { s with monitor := some MonitorPc.in_body }
    else { s with monitor := some MonitorPc.stopped }
  | some MonitorPc.in_body =>
    { s with
      monitor := some MonitorPc.at_guard
      last_count := s.shared.total_checked
      shared := { s.shared with out := s.shared.out ++ [Output.progress s.shared.total_checked] } }
  | some MonitorPc.stopped => s
  | none => s

/-- One step of the worker with index `i`, lines 114-130. -/
def worker_step (cfg : Config) (i : Nat) (s : System) : System :=
  match s.threads.get? i with
  | none => s
  | some t =>
    match t.pc with
    | WorkerPc.at_guard =>
      if worker_guard t.end_ t.locals s.shared then
        { s with threads := s.threads.set i { t with pc := WorkerPc.at_check } }
      else { s with threads := s.threads.set i { t with pc := WorkerPc.stopped } }
    | WorkerPc.at_check =>
      { s with
        shared := worker_check cfg t.locals s.shared
        threads := s.threads.set i { t with pc := WorkerPc.at_count } }
    | WorkerPc.at_count =>
      { s with
        shared := (worker_count t.locals s.shared).2
        threads := s.threads.set i
          { t with locals := (worker_count t.locals s.shared).1, pc := WorkerPc.at_guard } }
    | WorkerPc.stopped => s

/-- One step of the thread `t`. -/
def step (cfg : Config) (s : System) (t : Tid) : System :=
  match t with
  | Tid.main => main_step cfg s
  | Tid.monitor => monitor_step s
  | Tid.worker i => worker_step cfg i s

/-- The state reached from `s` when the threads move in the order `sched`. -/
def run (cfg : Config) (sched : List Tid) (s : System) : System :=
  sched.foldl (step cfg) s

/-- `main` has passed `monitor.join()`. -/
def past_monitor_join (s : System) : Bool :=
  s.main = MainPc.report || s.main = MainPc.returned

/-- Every started worker has returned and `main` has started them all. -/
def workers_stopped (cfg : Config) (s : System) : Bool :=
  s.threads.length = cfg.NUM_THREADS && s.threads.all (fun t => t.pc = WorkerPc.stopped)

/-- The scenario of the end-to-end test: `[0, 50]`, 2 workers, the target is
the digest of the key string of scalar 4. -/
def scenario (result_hash : List Char → List Char) : Config :=
  ⟨result_hash (key_hex_of 4), 0, 50, 2, result_hash⟩

/-- The schedule in which `main` starts everything, then each worker in turn
runs `n` steps, then `main` moves `m` times. -/
def sched_seq (n m : Nat) : List Tid :=
  List.replicate 4 Tid.main ++ List.replicate n (Tid.worker 0) ++
    List.replicate n (Tid.worker 1) ++ List.replicate m Tid.main

/-- A digest function under which every key has the digest
`f6f5431d25bbf7b12e8add9af5e3475c44a0a5b8`. -/
def digest_stub : List Char → List Char :=
  fun _ => "f6f5431d25bbf7b12e8add9af5e3475c44a0a5b8".toList

/-- The search is still on: the flag is down, only progress lines have been
written, the monitor has not returned and `main` has not passed
`monitor.join()`. -/
def searching (s : System) : Prop :=
  s.shared.found = false ∧ (∀ o ∈ s.shared.out, ∃ n, o = Output.progress n) ∧
    s.monitor ≠ some MonitorPc.stopped ∧ past_monitor_join s = false

/-! ## The configured constants (lines 15-17) -/

/-- The constant `TARGET_HASH` of line 15. -/
def TARGET_HASH : List Char := "f6f5431d25bbf7b12e8add9af5e3475c44a0a5b8".toList

/-- The 20 bytes whose hexadecimal form is `TARGET_HASH`. -/
def TARGET_BYTES : List Nat :=
  [0xf6, 0xf5, 0x43, 0x1d, 0x25, 0xbb, 0xf7, 0xb1, 0x2e, 0x8a, 0xdd, 0x9a, 0xf5, 0xe3, 0x47,
    0x5c, 0x44, 0xa0, 0xa5, 0xb8]

/-- The literal that initialises `START_RANGE` on line 16. -/
def START_RANGE_literal : Nat := 0x400000000000000000

/-- The literal that initialises `END_RANGE` on line 17. -/
def END_RANGE_literal : Nat := 0x7fffffffffffffffff

/-- The constant `START_RANGE`: the literal converted to `uint64_t`. -/
def START_RANGE : Nat := START_RANGE_literal % U64

/-- The constant `END_RANGE`: the literal converted to `uint64_t`. -/
def END_RANGE : Nat := END_RANGE_literal % U64

/-! ## `bytes_to_hex` (lines 28-35) -/

/-- The loop of lines 31-33: the first argument counts the iterations left,
the second is `i`, the third the content of `ss`.  A byte is an `unsigned char`;
`(int)data[i]` is printed under `std::hex`, `std::setfill('0')`, `std::setw(2)`. -/
def bytes_to_hex_loop (data : List Nat) : Nat → Nat → List Char → List Char
  | 0, _, ss => ss
  | n + 1, i, ss =>
    bytes_to_hex_loop data n (i + 1) (ss ++ setw_fill 2 '0' (hex_digits 8 (data.getD i 0 % 256)))

/-- The function `bytes_to_hex(data, len)`. -/
def bytes_to_hex (data : List Nat) (len : Nat) : List Char :=
  bytes_to_hex_loop data len 0 []

/-- The high and the low nibble of each byte, in order: the closed form of
`bytes_to_hex`. -/
def hex_pairs : List Nat → List Char
  | [] => []
  | b :: bs => hex_char (b / 16) :: hex_char (b % 16) :: hex_pairs bs

/-! ## The number a key string denotes -/

/-- A hexadecimal digit, of either case. -/
def is_hex_digit (c : Char) : Bool :=
  is_lower_hex c || ('A' ≤ c && c ≤ 'F')

/-- The value of a hexadecimal digit of either case (0 for any other
character). -/
def hex_digit_value (c : Char) : Nat :=
  if c = 'A' then 10 else if c = 'B' then 11 else if c = 'C' then 12
  else if c = 'D' then 13 else if c = 'E' then 14 else if c = 'F' then 15 else hex_val c

/-- The number that a string of hexadecimal digits denotes, most significant
digit first: the scalar that `BN_hex2bn` reads from `key_hex`. -/
def scalar_of (s : List Char) : Nat :=
  s.foldl (fun acc ch => 16 * acc + hex_digit_value ch) 0

/-- The order of the group of the curve secp256k1. -/
def secp256k1_order : Nat :=
  0xFFFFFFFFFFFFFFFFFFFFFFFFFFFFFFFEBAAEDCE6AF48A03BBFD25E8CD0364141

/-- A key that `is_valid_key` accepts. -/
def key_accepted : List Char :=
  "0000000000000000000000000000000000000000000000412345678123456781".toList

/-! ## The digest computation of `process_key` (lines 73-97)

The OpenSSL functions that `process_key` calls are parameters.  A pointer is an
`Option` (`none` is the null pointer); what a function does with a null
argument is part of the parameter.  The byte vector `private_key` of lines
67-71 is not used by the rest of the function and is left out. -/

/-- The library functions, over the types of key objects, groups and points. -/
structure OpenSSL (Key Group Point : Type) where
  /-- `EC_KEY_new_by_curve_name(NID_secp256k1)`: the new key object, or null. -/
  EC_KEY_new_by_curve_name : Option Key
  /-- `BN_hex2bn(&bn, key_hex.c_str())`: the number read. -/
  BN_hex2bn : List Char → Nat
  /-- `EC_KEY_set_private_key(eckey, bn)`: the key object after the call, and
  whether the call returned 1. -/
  EC_KEY_set_private_key : Option Key → Nat → Option Key × Bool
  /-- `EC_KEY_get0_public_key(eckey)`: the public point of the key object, null
  when it has none. -/
  EC_KEY_get0_public_key : Option Key → Option Point
  /-- `EC_KEY_get0_group(eckey)`. -/
  EC_KEY_get0_group : Option Key → Option Group
  /-- `EC_POINT_point2oct(group, point, POINT_CONVERSION_COMPRESSED, ...)`: the
  bytes of the encoding; the empty sequence when the call returns length 0, its
  failure value. -/
  EC_POINT_point2oct : Option Group → Option Point → List Nat
  /-- `SHA256(data, len, out)`: the 32 bytes written to `out`. -/
  SHA256 : List Nat → List Nat
  /-- `RIPEMD160(data, len, out)`: the 20 bytes written to `out`. -/
  RIPEMD160 : List Nat → List Nat
  /-- `EC_POINT_mul(group, r, n, NULL, NULL, ctx)`: the multiple `n * G` of the
  base point.  `process_key` does not call it. -/
  EC_POINT_mul : Option Group → Nat → Option Point

variable {Key Group Point : Type}

/-- Lines 74-77: the key object after `EC_KEY_set_private_key`. -/
def eckey_of (L : OpenSSL Key Group Point) (key_hex : List Char) : Option Key :=
  (L.EC_KEY_set_private_key L.EC_KEY_new_by_curve_name (L.BN_hex2bn key_hex)).1

/-- Lines 80-86: the vector `pub_key_bytes`; its length is `pub_len`, the value
returned by `EC_POINT_point2oct`. -/
def pub_key_bytes (L : OpenSSL Key Group Point) (key_hex : List Char) : List Nat :=
  L.EC_POINT_point2oct (L.EC_KEY_get0_group (eckey_of L key_hex))
    (L.EC_KEY_get0_public_key (eckey_of L key_hex))

/-- Lines 73-97: the string `result_hash` of `process_key`. -/
def result_hash_of (L : OpenSSL Key Group Point) (key_hex : List Char) : List Char :=
  bytes_to_hex (L.RIPEMD160 (L.SHA256 (pub_key_bytes L key_hex))) 20

/-- The digest the specification asks for: the point is obtained by an explicit
multiplication of the base point by the scalar of the key. -/
def explicit_digest (L : OpenSSL Key Group Point) (key_hex : List Char) : List Char :=
  bytes_to_hex (L.RIPEMD160 (L.SHA256
    (L.EC_POINT_point2oct (L.EC_KEY_get0_group L.EC_KEY_new_by_curve_name)
      (L.EC_POINT_mul (L.EC_KEY_get0_group L.EC_KEY_new_by_curve_name)
        (L.BN_hex2bn key_hex))))) 20

/-! ### A small library to run `process_key` on -/

/-- A stand-in for a hash function with `n` bytes of output: the first `n`
bytes of the input, padded with zeros. -/
def stub_hash (n : Nat) (bytes : List Nat) : List Nat :=
  (bytes ++ List.replicate n 0).take n

/-- A library in which, as in OpenSSL, setting the private key stores the
scalar and leaves the public point unset.  A key object is its scalar, a point
`n * G` is the number `n`; encoding the null point fails. -/
def lib_unset : OpenSSL Nat Unit Nat where
  EC_KEY_new_by_curve_name := some 0
  BN_hex2bn := scalar_of
  EC_KEY_set_private_key := fun _ bn => (some bn, true)
  EC_KEY_get0_public_key := fun _ => none
  EC_KEY_get0_group := fun _ => some ()
  EC_POINT_point2oct := fun _ p =>
    match p with
    | none => []
    | some n => 2 :: n % 256 :: List.replicate 31 0
  SHA256 := stub_hash 32
  RIPEMD160 := stub_hash 20
  EC_POINT_mul := fun _ n => some n

/-- The hex string of 20 zero bytes. -/
def zeros_40 : List Char := "0000000000000000000000000000000000000000".toList


/-! ## The worker loop over an arbitrary key encoding

Lines 114-130 once more, with the formatting of line 116 (the map from `current`
to `key_hex`) as the parameter `encode`; everything else is as in `worker_check`,
`worker_body`, `worker_loop`, `worker` and `worker_iter`, which are the instance
`encode = key_hex_of`. -/

theorem at_drop (s : List Char) (k i : Nat) : at_ (s.drop k) i = at_ s (k + i) := by
  simp [at_, List.getD_eq_getElem?_getD, List.getElem?_drop]

theorem prefix_loop_true (s : List Char) (n i : Nat) :
    prefix_loop s n i = true ↔ ∀ j, j < n → at_ s (i + j) = '0' := by
  induction n generalizing i with
  | zero => simp [prefix_loop]
  | succ n ih =>
    simp only [prefix_loop]
    by_cases h : at_ s i = '0'
    · simp only [h, bne_self_eq_false, Bool.false_eq_true, if_false, ih]
      constructor
      · intro hh j hj
        rcases Nat.eq_zero_or_pos j with rfl | hpos
        · simpa using h
        · have := hh (j - 1) (by omega)
          rwa [show i + 1 + (j - 1) = i + j by omega] at this
      · intro hh j hj
        have := hh (j + 1) (by omega)
        rwa [show i + (j + 1) = i + 1 + j by omega] at this
    · have hne : (at_ s i != '0') = true := by simpa using h
      simp only [hne, if_true, Bool.false_eq_true, false_iff]
      intro hh
      exact h (by simpa using hh 0 (by omega))

theorem run_loop_true (l : List Char) (n i : Nat) :
    run_loop l n i = true ↔ ∀ j, j < n → run_at l (i + j) = false := by
  induction n generalizing i with
  | zero => simp [run_loop]
  | succ n ih =>
    simp only [run_loop]
    by_cases h : run_at l i = true
    · simp only [h, if_true, Bool.false_eq_true, false_iff]
      intro hh
      have := hh 0 (by omega)
      simp [h] at this
    · have hf : run_at l i = false := by simpa using h
      simp only [hf, Bool.false_eq_true, if_false, ih]
      constructor
      · intro hh j hj
        rcases Nat.eq_zero_or_pos j with rfl | hpos
        · simpa using hf
        · have := hh (j - 1) (by omega)
          rwa [show i + 1 + (j - 1) = i + j by omega] at this
      · intro hh j hj
        have := hh (j + 1) (by omega)
        rwa [show i + (j + 1) = i + 1 + j by omega] at this

theorem run_at_drop (s : List Char) (j : Nat) :
    run_at (s.drop 47) j = true ↔ five_equal s (47 + j) := by
  simp [run_at, five_equal, at_drop, Nat.add_assoc, and_assoc]

theorem is_valid_key_iff (s : List Char) : is_valid_key s = true ↔ four_checks s := by
  unfold is_valid_key four_checks
  by_cases hlen : s.length = 64
  · have hb : ((s.drop 47).length + U64 - 4) % U64 = 13 := by
      simp [List.length_drop, hlen, U64]
    simp only [hlen, bne_self_eq_false, Bool.false_eq_true, if_false, hb, true_and]
    by_cases hp : prefix_loop s 46 0 = true
    · have hp2 := (prefix_loop_true s 46 0).1 hp
      simp only [Nat.zero_add] at hp2
      simp only [hp, Bool.not_true, Bool.false_eq_true, if_false]
      by_cases hc : at_ s 46 = '4' ∨ at_ s 46 = '5' ∨ at_ s 46 = '6' ∨ at_ s 46 = '7'
      · have hcb : (at_ s 46 != '4' && at_ s 46 != '5' && at_ s 46 != '6' &&
            at_ s 46 != '7') = false := by
          rcases hc with h | h | h | h <;> simp [h]
        simp only [hcb, Bool.false_eq_true, if_false, run_loop_true, Nat.zero_add]
        constructor
        · intro hh
          refine ⟨hp2, hc, ?_⟩
          intro i h1 h2 h5
          have := hh (i - 47) (by omega)
          rw [← Bool.not_eq_true, run_at_drop, show 47 + (i - 47) = i by omega] at this
          exact this h5
        · rintro ⟨-, -, hh⟩ j hj
          rw [← Bool.not_eq_true, run_at_drop]
          exact hh (47 + j) (by omega) (by omega)
      · have hcb : (at_ s 46 != '4' && at_ s 46 != '5' && at_ s 46 != '6' &&
            at_ s 46 != '7') = true := by
          simp only [not_or] at hc
          simp [hc.1, hc.2.1, hc.2.2.1, hc.2.2.2]
        simp only [hcb, if_true, Bool.false_eq_true, false_iff]
        rintro ⟨-, h, -⟩
        exact hc h
    · have hpf : prefix_loop s 46 0 = false := by simpa using hp
      simp only [hpf, Bool.not_false, if_true, Bool.false_eq_true, false_iff]
      rintro ⟨h, -⟩
      apply hp
      rw [prefix_loop_true]
      intro j hj
      simpa using h j hj
  · have : (s.length != 64) = true := by simpa using hlen
    simp [this, hlen]

/-! ## The instrumented copy computes the same result -/

theorem prefix_loop_reads_fst (s : List Char) (n i : Nat) (log : List Nat) :
    (prefix_loop_reads s n i log).1 = prefix_loop s n i := by
  induction n generalizing i log with
  | zero => rfl
  | succ n ih =>
    simp only [prefix_loop_reads, prefix_loop]
    split
    · rfl
    · exact ih _ _

theorem run_at_reads_fst (l : List Char) (i : Nat) (log : List Nat) :
    (run_at_reads l i log).1 = run_at l i := by
  simp only [run_at_reads, run_at]
  split <;> rename_i h1
  · split <;> rename_i h2
    · split <;> rename_i h3
      · simp [h1, h2, h3]
      · simp [h1, h2, h3]
    · simp [h1, h2]
  · simp [h1]

theorem run_loop_reads_fst (l : List Char) (n i : Nat) (log : List Nat) :
    (run_loop_reads l n i log).1 = run_loop l n i := by
  induction n generalizing i log with
  | zero => rfl
  | succ n ih =>
    simp only [run_loop_reads, run_loop, run_at_reads_fst]
    split
    · rfl
    · exact ih _ _

theorem is_valid_key_reads_fst (s : List Char) :
    (is_valid_key_reads s).1 = is_valid_key s := by
  simp only [is_valid_key_reads, is_valid_key, prefix_loop_reads_fst]
  split
  · rfl
  · split
    · rfl
    · split
      · rfl
      · exact run_loop_reads_fst _ _ _ _

/-! ## Claims about the candidate filter -/

/-- C1 (as the claim states it, refuted): the key `key_run_at_59` has 64
lowercase hex characters, 46 leading zeros, `'4'` at index 46 and no run of five
equal characters starting at an index in 47..58, yet `is_valid_key` rejects it,
because of the run starting at index 59. -/
theorem is_valid_key_rejects_run_at_59 :
    key_run_at_59.length = 64 ∧ key_run_at_59.all is_lower_hex = true ∧
      (∀ i, i < 46 → at_ key_run_at_59 i = '0') ∧
      (at_ key_run_at_59 46 = '4' ∨ at_ key_run_at_59 46 = '5' ∨
        at_ key_run_at_59 46 = '6' ∨ at_ key_run_at_59 46 = '7') ∧
      (∀ i, 47 ≤ i → i ≤ 58 → ¬ five_equal key_run_at_59 i) ∧
      is_valid_key key_run_at_59 = false := by
  refine ⟨by decide, by decide, ?_, by decide, ?_, by decide⟩
  · intro i hi
    interval_cases i <;> decide
  · intro i h1 h2
    interval_cases i <;> decide

/-- C1 (amended): for every 64-character string `s`, `is_valid_key s` is true
exactly when the first 46 characters are `'0'`, `s[46]` is one of `'4'..'7'`, and
no index `i` with `47 ≤ i ≤ 59` starts five equal characters. -/
theorem is_valid_key_on_64 (s : List Char) (hlen : s.length = 64) :
    is_valid_key s = true ↔
      ((∀ i, i < 46 → at_ s i = '0') ∧
        (at_ s 46 = '4' ∨ at_ s 46 = '5' ∨ at_ s 46 = '6' ∨ at_ s 46 = '7') ∧
        ∀ i, 47 ≤ i → i ≤ 59 → ¬ five_equal s i) := by
  rw [is_valid_key_iff]
  unfold four_checks
  constructor
  · exact fun h => h.2
  · exact fun h => ⟨hlen, h⟩

/-- Witness of C1 (amended) on a 64-character key. -/
theorem is_valid_key_on_64_witness :
    key_run_at_59.length = 64 ∧
      (is_valid_key key_run_at_59 = true ↔
        ((∀ i, i < 46 → at_ key_run_at_59 i = '0') ∧
          (at_ key_run_at_59 46 = '4' ∨ at_ key_run_at_59 46 = '5' ∨
            at_ key_run_at_59 46 = '6' ∨ at_ key_run_at_59 46 = '7') ∧
          ∀ i, 47 ≤ i → i ≤ 59 → ¬ five_equal key_run_at_59 i)) :=
  ⟨by decide, is_valid_key_on_64 key_run_at_59 (by decide)⟩

/-- C2: for every string `s`, of any length, `is_valid_key s` is true exactly
when the four checks pass (length 64, characters 0..45 are `'0'`, `s[46]` in
`'4'..'7'`, no five equal characters starting at 47..59); the instrumented copy
returns the same result, and for a length other than 64 it returns `false` with
an empty read log: no character has been indexed. -/
theorem is_valid_key_four_checks (s : List Char) :
    (is_valid_key s = true ↔
      (s.length = 64 ∧ (∀ i, i < 46 → at_ s i = '0') ∧
        (at_ s 46 = '4' ∨ at_ s 46 = '5' ∨ at_ s 46 = '6' ∨ at_ s 46 = '7') ∧
        ∀ i, 47 ≤ i → i ≤ 59 → ¬ five_equal s i)) ∧
    (is_valid_key_reads s).1 = is_valid_key s ∧
    (s.length = 64 ∨ is_valid_key_reads s = (false, [])) := by
  refine ⟨is_valid_key_iff s, is_valid_key_reads_fst s, ?_⟩
  by_cases h : s.length = 64
  · exact Or.inl h
  · right
    have : (s.length != 64) = true := by simpa using h
    simp [is_valid_key_reads, this]

/-! ## The partition arithmetic does not wrap -/

theorem sub64_of_le {a b : Nat} (hab : b ≤ a) (ha : a < U64) : sub64 a b = a - b := by
  unfold sub64
  rw [show a + U64 - b = (a - b) + U64 by omega, Nat.add_mod_right]
  exact Nat.mod_eq_of_lt (by omega)

theorem range_per_thread_eq {S E N : Nat} (hSE : S ≤ E) (hE : E < U64) (hN : N < 2 ^ 31) :
    range_per_thread S E N = (E - S) / N := by
  unfold range_per_thread
  rw [sub64_of_le hSE hE, Nat.mod_eq_of_lt (by unfold U64; omega)]

theorem per_mul_le {S E N : Nat} (hSE : S ≤ E) (hE : E < U64) (hN : N < 2 ^ 31) :
    N * range_per_thread S E N ≤ E - S := by
  rw [range_per_thread_eq hSE hE hN]
  exact Nat.mul_div_le _ _

theorem thread_start_eq {S E N i : Nat} (hSE : S ≤ E) (hE : E < U64) (hN : N < 2 ^ 31)
    (hi : i < N) : thread_start S E N i = S + i * range_per_thread S E N := by
  have h1 := per_mul_le hSE hE hN
  have h2 : i * range_per_thread S E N ≤ N * range_per_thread S E N :=
    Nat.mul_le_mul_right _ (by omega)
  unfold thread_start add64 mul64
  rw [Nat.mod_eq_of_lt (show i < U64 by unfold U64; omega),
    Nat.mod_eq_of_lt (show i * range_per_thread S E N < U64 by omega),
    Nat.mod_eq_of_lt (by omega)]

theorem thread_start_le {S E N i : Nat} (hSE : S ≤ E) (hE : E < U64) (hN : N < 2 ^ 31)
    (hi : i < N) : S ≤ thread_start S E N i ∧ thread_start S E N i ≤ E := by
  have h1 := per_mul_le hSE hE hN
  have h2 : i * range_per_thread S E N ≤ N * range_per_thread S E N :=
    Nat.mul_le_mul_right _ (by omega)
  rw [thread_start_eq hSE hE hN hi]
  omega

theorem thread_end_last {S E N : Nat} (hN1 : 1 ≤ N) : thread_end S E N (N - 1) = E := by
  unfold thread_end
  rw [if_pos (by omega)]

/-- For a worker that is not the last, `end + 1 = START + (i+1) * per`, unless
`START + per` is 0. -/
theorem thread_end_succ {S E N i : Nat} (hSE : S ≤ E) (hE : E < U64) (hN : N < 2 ^ 31)
    (hi : i + 1 < N) (hpos : 1 ≤ range_per_thread S E N ∨ 1 ≤ S) :
    thread_end S E N i + 1 = S + (i + 1) * range_per_thread S E N := by
  have h1 := per_mul_le hSE hE hN
  have h2 : (i + 1) * range_per_thread S E N ≤ N * range_per_thread S E N :=
    Nat.mul_le_mul_right _ (by omega)
  have h3 : (i + 1) * range_per_thread S E N =
      i * range_per_thread S E N + range_per_thread S E N := by ring
  unfold thread_end
  rw [if_neg (by omega), thread_start_eq hSE hE hN (by omega)]
  unfold add64 sub64
  rw [Nat.mod_eq_of_lt (show S + i * range_per_thread S E N + range_per_thread S E N < U64
    by omega)]
  rw [show S + i * range_per_thread S E N + range_per_thread S E N + U64 - 1 =
    (S + i * range_per_thread S E N + range_per_thread S E N - 1) + U64 by omega,
    Nat.add_mod_right, Nat.mod_eq_of_lt (by omega)]
  omega

/-- The set scanned by worker `i`, in closed form. -/
theorem scans_thread_range {S E N i : Nat} (hSE : S ≤ E) (hE : E < U64) (hN1 : 1 ≤ N)
    (hN : N < 2 ^ 31) (hi : i < N)
    (hpos : 1 ≤ range_per_thread S E N ∨ 1 ≤ S ∨ N = 1) (c : Nat) :
    scans (thread_range S E N i) c ↔
      (S + i * range_per_thread S E N ≤ c ∧
        if i = N - 1 then c ≤ E else c + 1 ≤ S + (i + 1) * range_per_thread S E N) := by
  unfold scans thread_range
  simp only []
  rw [thread_start_eq hSE hE hN hi]
  by_cases hl : i = N - 1
  · rw [if_pos hl, hl, thread_end_last hN1]
  · rw [if_neg hl]
    have := thread_end_succ hSE hE hN (show i + 1 < N by omega) (by omega)
    omega

/-! ## Claims about the partition -/

/-- C3 (as the claim states it, refuted): with `RANGE_START = RANGE_END = 0` and
two workers, `per` is 0, worker 0 gets `(0, 2^64 - 1)` and worker 1 gets
`(0, 0)`: both scan the value 0, and worker 0 scans the value 1, outside
`[0, 0]`. -/
theorem partition_overlaps_at_zero :
    (0 : Nat) ≤ 0 ∧ 1 ≤ 2 ∧ range_per_thread 0 0 2 = 0 ∧
      thread_range 0 0 2 0 = (0, 2 ^ 64 - 1) ∧ thread_range 0 0 2 1 = (0, 0) ∧
      scans (thread_range 0 0 2 0) 0 ∧ scans (thread_range 0 0 2 1) 0 ∧
      scans (thread_range 0 0 2 0) 1 ∧ ¬ ((0 : Nat) ≤ 1 ∧ 1 ≤ 0) := by
  decide

/-- C3 (amended): for `RANGE_START ≤ RANGE_END < 2^64` and `1 ≤ N < 2^31` with
`per ≥ 1` or `RANGE_START ≥ 1` or `N = 1`, a value is scanned by some worker
exactly when it lies in `[RANGE_START, RANGE_END]`, and no value is scanned by
two different workers. -/
theorem partition_exact_cover (S E N : Nat) (hSE : S ≤ E) (hE : E < U64) (hN1 : 1 ≤ N)
    (hN : N < 2 ^ 31) (hpos : 1 ≤ range_per_thread S E N ∨ 1 ≤ S ∨ N = 1) :
    (∀ c, (∃ i, i < N ∧ scans (thread_range S E N i) c) ↔ (S ≤ c ∧ c ≤ E)) ∧
      (∀ i j c, i < N → j < N → scans (thread_range S E N i) c →
        scans (thread_range S E N j) c → i = j) := by
  have hmul := per_mul_le hSE hE hN
  constructor
  · intro c
    constructor
    · rintro ⟨i, hi, hs⟩
      rw [scans_thread_range hSE hE hN1 hN hi hpos] at hs
      have h2 : (i + 1) * range_per_thread S E N ≤ N * range_per_thread S E N :=
        Nat.mul_le_mul_right _ (by omega)
      obtain ⟨hs1, hs2⟩ := hs
      split at hs2 <;> omega
    · rintro ⟨hc1, hc2⟩
      by_cases hlast : S + (N - 1) * range_per_thread S E N ≤ c
      · refine ⟨N - 1, by omega, ?_⟩
        rw [scans_thread_range hSE hE hN1 hN (by omega) hpos, if_pos rfl]
        exact ⟨hlast, hc2⟩
      · have hper : 0 < range_per_thread S E N := by
          rcases Nat.eq_zero_or_pos (range_per_thread S E N) with h0 | h0
          · rw [h0] at hlast; omega
          · exact h0
        have hd1 : (c - S) / range_per_thread S E N * range_per_thread S E N ≤ c - S :=
          Nat.div_mul_le_self _ _
        have hd2 : c - S < ((c - S) / range_per_thread S E N + 1) * range_per_thread S E N :=
by
          have := Nat.div_add_mod (c - S) (range_per_thread S E N)
          have hm := Nat.mod_lt (c - S) hper
          rw [Nat.add_mul, Nat.one_mul, Nat.mul_comm]
          omega
        have hlt : (c - S) / range_per_thread S E N < N - 1 := by
          rw [Nat.div_lt_iff_lt_mul hper]
          omega
        refine ⟨(c - S) / range_per_thread S E N, by omega, ?_⟩
        rw [scans_thread_range hSE hE hN1 hN (by omega) hpos, if_neg (by omega)]
        omega
  · have key : ∀ i j c, i < j → j < N → scans (thread_range S E N i) c →
        scans (thread_range S E N j) c → False := by
      intro i j c hij hj hi' hj'
      rw [scans_thread_range hSE hE hN1 hN (by omega) hpos, if_neg (by omega)] at hi'
      rw [scans_thread_range hSE hE hN1 hN hj hpos] at hj'
      have h2 : (i + 1) * range_per_thread S E N ≤ j * range_per_thread S E N :=
        Nat.mul_le_mul_right _ (by omega)
      omega
    intro i j c hi hj hsi hsj
    rcases Nat.lt_trichotomy i j with h | h | h
    · exact (key i j c h hj hsi hsj).elim
    · exact h
    · exact (key j i c h hi hsj hsi).elim

/-- Witness of C3 (amended): `[0, 50]` split between 2 workers. -/
theorem partition_exact_cover_witness :
    ((0 : Nat) ≤ 50 ∧ 50 < U64 ∧ 1 ≤ 2 ∧ 2 < 2 ^ 31 ∧ 1 ≤ range_per_thread 0 50 2) ∧
      (∀ c, (∃ i, i < 2 ∧ scans (thread_range 0 50 2 i) c) ↔ (0 ≤ c ∧ c ≤ 50)) ∧
      (∀ i j c, i < 2 → j < 2 → scans (thread_range 0 50 2 i) c →
        scans (thread_range 0 50 2 j) c → i = j) :=
  ⟨by decide, partition_exact_cover 0 50 2 (by decide) (by decide) (by decide) (by decide)
    (Or.inl (by decide))⟩

/-- C4 (as the claim states it, refuted): with `RANGE_START = 1`, `RANGE_END = 2`
and two workers, `RANGE_END - RANGE_START + 1 = 2 ≥ N`, yet `per` is 0 and
worker 0 gets `(1, 0)`, an empty range. -/
theorem partition_empty_range :
    (1 : Nat) ≤ 2 ∧ 2 < U64 ∧ (2 : Nat) ≤ 2 - 1 + 1 ∧ range_per_thread 1 2 2 = 0 ∧
      thread_range 1 2 2 0 = (1, 0) ∧
      ¬ (thread_range 1 2 2 0).1 ≤ (thread_range 1 2 2 0).2 := by
  decide

/-- C4 (amended): for `RANGE_START ≤ RANGE_END < 2^64` and `1 ≤ N < 2^31` with
`RANGE_END - RANGE_START ≥ N` (that is `per ≥ 1`) or `N = 1`, every worker `i`
has `start_i ≤ end_i`. -/
theorem partition_ranges_nonempty (S E N : Nat) (hSE : S ≤ E) (hE : E < U64) (hN1 : 1 ≤ N)
    (hN : N < 2 ^ 31) (hsize : N ≤ E - S ∨ N = 1) (i : Nat) (hi : i < N) :
    (thread_range S E N i).1 ≤ (thread_range S E N i).2 := by
  unfold thread_range
  simp only []
  by_cases hl : i = N - 1
  · rw [hl, thread_end_last hN1]
    exact (thread_start_le hSE hE hN (by omega)).2
  · have hNle : N ≤ E - S := by omega
    have hper : 1 ≤ range_per_thread S E N := by
      rw [range_per_thread_eq hSE hE hN]
      exact (Nat.one_le_div_iff (by omega)).2 hNle
    have h1 := thread_end_succ hSE hE hN (show i + 1 < N by omega) (Or.inl hper)
    have h2 := thread_start_eq hSE hE hN hi
    have h3 : (i + 1) * range_per_thread S E N =
        i * range_per_thread S E N + range_per_thread S E N := by ring
    omega

/-- Witness of C4 (amended): `[0, 50]` split between 2 workers, worker 0. -/
theorem partition_ranges_nonempty_witness :
    ((0 : Nat) ≤ 50 ∧ 50 < U64 ∧ 1 ≤ 2 ∧ 2 < 2 ^ 31 ∧ 2 ≤ 50 - 0 ∧ 0 < 2) ∧
      (thread_range 0 50 2 0).1 ≤ (thread_range 0 50 2 0).2 :=
  ⟨by decide, partition_ranges_nonempty 0 50 2 (by decide) (by decide) (by decide)
    (by decide) (Or.inl (by decide)) 0 (by decide)⟩

/-! ## Claims about the start-up of `main` -/

theorem spawn_loop_eq (S E N : Nat) (n i : Nat) (threads : List Thread) :
    spawn_loop S E N n i threads =
      threads ++ (List.range n).map
        (fun k => Thread.worker (thread_start S E N (i + k)) (thread_end S E N (i + k))) := by
  induction n generalizing i threads with
  | zero => simp [spawn_loop]
  | succ n ih =>
    rw [spawn_loop, ih, List.range_succ_eq_map, List.map_cons, List.map_map,
      List.append_assoc]
    simp only [List.singleton_append, Nat.add_zero, List.cons.injEq, true_and,
      List.append_cancel_left_eq]
    apply List.map_congr_left
    intro k _
    simp only [Function.comp, Nat.succ_eq_add_one]
    rw [show i + 1 + k = i + (k + 1) by omega]

/-- C5 (as the claim states it, refuted): with `RANGE_START = RANGE_END = 0` and
two workers, `per` is 0, and `main` does not refuse: it starts the monitor and
both workers. -/
theorem main_starts_with_per_zero :
    range_per_thread 0 0 2 = 0 ∧ main_startup 0 0 2 ≠ Startup.rejected ∧
      main_startup 0 0 2 =
        Startup.started [Thread.monitor, Thread.worker 0 (2 ^ 64 - 1), Thread.worker 0 0] := by
  decide

/-- C5 (amended): `main` checks neither `N` nor `per`.  For every worker count
`1 ≤ N < 2^31`, also when `per` is 0, it starts the monitor and then the `N`
workers, worker `i` on the pair `thread_range i`. -/
theorem main_never_rejects (S E N : Nat) (hN1 : 1 ≤ N) (hN : N < 2 ^ 31) :
    main_startup S E N =
      Startup.started (Thread.monitor ::
        (List.range N).map (fun i => Thread.worker (thread_range S E N i).1
          (thread_range S E N i).2)) := by
  unfold main_startup
  rw [if_neg (by rw [Nat.mod_eq_of_lt (by unfold U64; omega)]; omega), spawn_loop_eq]
  simp [thread_range]

/-- Witness of C5 (amended): `RANGE_START = RANGE_END = 0`, two workers, `per = 0`. -/
theorem main_never_rejects_witness :
    ((1 : Nat) ≤ 2 ∧ (2 : Nat) < 2 ^ 31 ∧ range_per_thread 0 0 2 = 0) ∧
      main_startup 0 0 2 =
        Startup.started (Thread.monitor ::
          (List.range 2).map (fun i => Thread.worker (thread_range 0 0 2 i).1
            (thread_range 0 0 2 i).2)) :=
  ⟨by decide, main_never_rejects 0 0 2 (by decide) (by decide)⟩

/-- With no worker (`NUM_THREADS = 0`) the division of line 166 is a division by
zero. -/
theorem main_startup_zero_threads (S E : Nat) : main_startup S E 0 = Startup.undefined := by
  simp [main_startup]

/-! ## The key string -/

theorem hex_char_spec : ∀ d, d < 16 → is_lower_hex (hex_char d) = true ∧ hex_val (hex_char d) = d := by
  decide

theorem hex_digits_length (k n : Nat) : (hex_digits k n).length ≤ k := by
  induction k generalizing n with
  | zero => simp [hex_digits]
  | succ k ih =>
    rw [hex_digits]
    split
    · simp
    · have := ih (n / 16)
      simp only [List.length_append, List.length_singleton]
      omega

theorem hex_digits_lower_hex (k n : Nat) : ∀ ch ∈ hex_digits k n, is_lower_hex ch = true := by
  induction k generalizing n with
  | zero => simp [hex_digits]
  | succ k ih =>
    rw [hex_digits]
    split
    · rename_i h
      intro ch hch
      rw [List.mem_singleton] at hch
      rw [hch]
      exact (hex_char_spec n h).1
    · intro ch hch
      rw [List.mem_append, List.mem_singleton] at hch
      rcases hch with h | h
      · exact ih _ ch h
      · rw [h]
        exact (hex_char_spec (n % 16) (Nat.mod_lt _ (by omega))).1

theorem hex_value_append (s : List Char) (ch : Char) :
    hex_value (s ++ [ch]) = 16 * hex_value s + hex_val ch := by
  simp [hex_value, List.foldl_append]

theorem hex_value_digits (k n : Nat) (h : n < 16 ^ k) : hex_value (hex_digits k n) = n := by
  induction k generalizing n with
  | zero =>
    have : n = 0 := by simpa using h
    simp [hex_digits, hex_value, this]
  | succ k ih =>
    rw [hex_digits]
    split
    · rename_i hn
      have := (hex_char_spec n hn).2
      simp [hex_value, this]
    · rw [hex_value_append, ih (n / 16) (by rw [Nat.div_lt_iff_lt_mul (by omega)]; rw [pow_succ] at h; exact h),
        (hex_char_spec (n % 16) (Nat.mod_lt _ (by omega))).2]
      omega

theorem hex_value_zeros (k : Nat) (s : List Char) :
    hex_value (List.replicate k '0' ++ s) = hex_value s := by
  have h0 : ∀ k, List.foldl (fun acc ch => 16 * acc + hex_val ch) 0 (List.replicate k '0') = 0 := by
    intro k
    induction k with
    | zero => rfl
    | succ k ih =>
      rw [List.replicate_succ, List.foldl_cons]
      simpa [hex_val] using ih
  simp only [hex_value, List.foldl_append, h0]

theorem key_hex_of_length (c : Nat) : (key_hex_of c).length = 64 := by
  have := hex_digits_length 16 c
  simp only [key_hex_of, setw_fill, List.length_append, List.length_replicate]
  omega

theorem at_replicate_append (k : Nat) (s : List Char) (i : Nat) (hi : i < k) :
    at_ (List.replicate k '0' ++ s) i = '0' := by
  unfold at_
  rw [List.getD_eq_getElem?_getD, List.getElem?_append_left (by simpa using hi)]
  simp [List.getElem?_replicate, hi]

theorem key_hex_of_leading_zeros (c i : Nat) (hi : i < 48) : at_ (key_hex_of c) i = '0' := by
  have := hex_digits_length 16 c
  unfold key_hex_of setw_fill
  exact at_replicate_append _ _ _ (by omega)

theorem key_hex_of_value (c : Nat) (hc : c < U64) : hex_value (key_hex_of c) = c := by
  unfold key_hex_of setw_fill
  rw [hex_value_zeros]
  exact hex_value_digits 16 c (by unfold U64 at hc; omega)

theorem key_hex_of_lower_hex (c : Nat) : ∀ ch ∈ key_hex_of c, is_lower_hex ch = true := by
  intro ch hch
  unfold key_hex_of setw_fill at hch
  rw [List.mem_append] at hch
  rcases hch with h | h
  · rw [(List.mem_replicate.1 h).2]
    decide
  · exact hex_digits_lower_hex 16 c ch h

/-- No 64-bit counter passes the filter: character 46 of its key string is
`'0'`. -/
theorem is_valid_key_key_hex_of (c : Nat) : is_valid_key (key_hex_of c) = false := by
  rw [← Bool.not_eq_true, is_valid_key_iff]
  rintro ⟨-, -, h, -⟩
  rw [key_hex_of_leading_zeros c 46 (by omega)] at h
  revert h
  decide

/-- C10: for every 64-bit counter `c`, the key string has exactly 64
characters, each a lowercase hex digit, its first 48 characters are the padding
zeros, read as a big-endian hexadecimal number it is `c`, and no other 64-bit
counter has the same string. -/
theorem key_hex_of_spec (c : Nat) (hc : c < U64) :
    (key_hex_of c).length = 64 ∧ (∀ ch ∈ key_hex_of c, is_lower_hex ch = true) ∧
      (∀ i, i < 48 → at_ (key_hex_of c) i = '0') ∧ hex_value (key_hex_of c) = c ∧
      (∀ c', c' < U64 → key_hex_of c' = key_hex_of c → c' = c) := by
  refine ⟨key_hex_of_length c, key_hex_of_lower_hex c, fun i hi => key_hex_of_leading_zeros c i hi,
    key_hex_of_value c hc, ?_⟩
  intro c' hc' heq
  rw [← key_hex_of_value c' hc', ← key_hex_of_value c hc, heq]

/-- Witness of C10 at the counter 255. -/
theorem key_hex_of_spec_witness :
    255 < U64 ∧ key_hex_of 255 =
        "00000000000000000000000000000000000000000000000000000000000000ff".toList ∧
      ((key_hex_of 255).length = 64 ∧ (∀ ch ∈ key_hex_of 255, is_lower_hex ch = true) ∧
        (∀ i, i < 48 → at_ (key_hex_of 255) i = '0') ∧ hex_value (key_hex_of 255) = 255 ∧
        (∀ c', c' < U64 → key_hex_of c' = key_hex_of 255 → c' = 255)) :=
  ⟨by decide, by decide, key_hex_of_spec 255 (by decide)⟩

/-! ## The worker loop, run alone -/

theorem worker_check_eq (cfg : Config) (w : WorkerState) (g : Shared) :
    worker_check cfg w g = g := by
  simp [worker_check, is_valid_key_key_hex_of]

theorem worker_body_eq (cfg : Config) (w : WorkerState) (g : Shared) :
    worker_body cfg w g = worker_count w g := by
  rw [worker_body, worker_check_eq]

theorem worker_count_current (w : WorkerState) (g : Shared) :
    (worker_count w g).1.current = add64 w.current 1 := by
  unfold worker_count
  simp only []
  split <;> rfl

theorem worker_count_found (w : WorkerState) (g : Shared) :
    (worker_count w g).2.found = g.found := by
  unfold worker_count
  simp only []
  split <;> rfl

theorem worker_count_out (w : WorkerState) (g : Shared) :
    (worker_count w g).2.out = g.out := by
  unfold worker_count
  simp only []
  split <;> rfl

theorem add64_lt (a b : Nat) : add64 a b < U64 :=
  Nat.mod_lt _ (by unfold U64; omega)

/-- The state after `n` executions of the loop body, in closed form, as long as
neither `current` nor `total_checked` wraps. -/
theorem worker_iter_closed (cfg : Config) (n : Nat) (c l T : Nat) (o : List Output)
    (hl : l < 10000) (hc : c + n < U64) (hT : T + 10000 * ((l + n) / 10000) < U64) :
    worker_iter cfg n (⟨c, l⟩, ⟨T, false, o⟩) =
      (⟨c + n, (l + n) % 10000⟩, ⟨T + 10000 * ((l + n) / 10000), false, o⟩) := by
  induction n generalizing c l T with
  | zero =>
    simp only [worker_iter, Nat.add_zero, Nat.mod_eq_of_lt hl, Nat.div_eq_of_lt hl,
      Nat.mul_zero]
  | succ n ih =>
    have hU : U64 = 18446744073709551616 := by unfold U64; norm_num
    rw [worker_iter, worker_body_eq]
    unfold worker_count add64
    simp only []
    have h1 : (c + 1) % U64 = c + 1 := Nat.mod_eq_of_lt (by omega)
    have h2 : (l + 1) % U64 = l + 1 := Nat.mod_eq_of_lt (by omega)
    rw [h1, h2]
    by_cases hb : (l + 1) % 10000 = 0
    · rw [if_pos hb]
      have h3 : (T + 10000) % U64 = T + 10000 := Nat.mod_eq_of_lt (by omega)
      rw [h3, ih (c + 1) 0 (T + 10000) (by omega) (by omega) (by omega)]
      have e1 : c + 1 + n = c + (n + 1) := by omega
      have e2 : (0 + n) % 10000 = (l + (n + 1)) % 10000 := by omega
      have e3 : T + 10000 + 10000 * ((0 + n) / 10000) = T + 10000 * ((l + (n + 1)) / 10000) := by
        omega
      rw [e1, e2, e3]
    · rw [if_neg hb, ih (c + 1) (l + 1) T (by omega) (by omega) (by
        rw [show l + 1 + n = l + (n + 1) by omega]; exact hT)]
      have e1 : c + 1 + n = c + (n + 1) := by omega
      have e2 : l + 1 + n = l + (n + 1) := by omega
      rw [e1, e2]

/-- While values are left, the loop goes on: with the flag down and
`current + d = end + 1 < 2^64`, the loop stops after exactly `d` executions of
its body. -/
theorem worker_loop_exhausts (cfg : Config) (end_ : Nat) (hend : end_ + 1 < U64) (d : Nat) :
    ∀ (w : WorkerState) (g : Shared) (fuel : Nat), g.found = false →
      w.current + d = end_ + 1 → d + 1 ≤ fuel →
      worker_loop cfg end_ fuel w g = some (worker_iter cfg d (w, g)) := by
  induction d with
  | zero =>
    intro w g fuel hf hc hfuel
    obtain ⟨f, rfl⟩ : ∃ f, fuel = f + 1 := ⟨fuel - 1, by omega⟩
    have hg : worker_guard end_ w g = false := by
      simp [worker_guard]
      intro h
      omega
    simp [worker_loop, hg, worker_iter]
  | succ d ih =>
    intro w g fuel hf hc hfuel
    obtain ⟨f, rfl⟩ : ∃ f, fuel = f + 1 := ⟨fuel - 1, by omega⟩
    have hg : worker_guard end_ w g = true := by
      simp only [worker_guard, hf, Bool.not_false, Bool.and_true, decide_eq_true_eq]
      omega
    rw [worker_loop, if_pos hg, worker_iter]
    apply ih
    · rw [worker_body_eq, worker_count_found, hf]
    · rw [worker_body_eq, worker_count_current]
      unfold add64
      rw [Nat.mod_eq_of_lt (by omega)]
      omega
    · omega

/-- With `end = 2^64 - 1` the loop condition never fails. -/
theorem worker_loop_max_end (cfg : Config) (fuel : Nat) :
    ∀ (w : WorkerState) (g : Shared), g.found = false → w.current < U64 →
      worker_loop cfg (U64 - 1) fuel w g = none := by
  induction fuel with
  | zero => intro w g _ _; rfl
  | succ f ih =>
    intro w g hf hc
    have hg : worker_guard (U64 - 1) w g = true := by
      simp only [worker_guard, hf, Bool.not_false, Bool.and_true, decide_eq_true_eq]
      omega
    rw [worker_loop, if_pos hg]
    apply ih
    · rw [worker_body_eq, worker_count_found, hf]
    · rw [worker_body_eq, worker_count_current]
      exact add64_lt _ _

/-- A result of the loop does not depend on the bound that was enough for it. -/
theorem worker_loop_mono (cfg : Config) (end_ : Nat) (f : Nat) :
    ∀ (w : WorkerState) (g : Shared) (r : WorkerState × Shared) (k : Nat),
      worker_loop cfg end_ f w g = some r → worker_loop cfg end_ (f + k) w g = some r := by
  induction f with
  | zero => intro w g r k h; simp [worker_loop] at h
  | succ f ih =>
    intro w g r k h
    rw [show f + 1 + k = (f + k) + 1 by omega, worker_loop]
    rw [worker_loop] at h
    split
    · rename_i hg
      rw [if_pos hg] at h
      exact ih _ _ _ _ h
    · rename_i hg
      rw [if_neg hg] at h
      exact h

/-- A worker on `[start, end]` with `end < 2^64 - 1`, alone, the flag down and
the counter at 0: the loop condition holds before each of the first
`end - start + 1` executions of the body, the `k`-th of which works on
`start + k`; then the loop stops, with `total_checked` at
`10000 * ((end - start + 1) / 10000)`. -/
theorem worker_scans_in_order (cfg : Config) (start end_ : Nat) (h1 : start ≤ end_)
    (h2 : end_ < U64 - 1) :
    (∀ k, k ≤ end_ - start →
      (worker_iter cfg k (⟨start, 0⟩, Shared.init)).1.current = start + k ∧
      worker_guard end_ (worker_iter cfg k (⟨start, 0⟩, Shared.init)).1
        (worker_iter cfg k (⟨start, 0⟩, Shared.init)).2 = true) ∧
    (∀ fuel, end_ - start + 2 ≤ fuel →
      worker cfg fuel start end_ Shared.init =
        some (⟨end_ + 1, (end_ - start + 1) % 10000⟩,
          ⟨10000 * ((end_ - start + 1) / 10000), false, []⟩)) := by
  have hU : U64 = 18446744073709551616 := by unfold U64; norm_num
  have hcl : ∀ k, k ≤ end_ - start + 1 →
      worker_iter cfg k (⟨start, 0⟩, Shared.init) =
        (⟨start + k, k % 10000⟩, ⟨10000 * (k / 10000), false, []⟩) := by
    intro k hk
    have := worker_iter_closed cfg k start 0 0 [] (by omega) (by omega) (by omega)
    simpa [Shared.init] using this
  constructor
  · intro k hk
    rw [hcl k (by omega)]
    refine ⟨rfl, ?_⟩
    simp only [worker_guard, Bool.not_false, Bool.and_true, decide_eq_true_eq]
    omega
  · intro fuel hfuel
    unfold worker
    rw [worker_loop_exhausts cfg end_ (by omega) (end_ - start + 1) ⟨start, 0⟩ Shared.init fuel
      rfl (by simp only []; omega) (by omega), hcl _ (Nat.le_refl _)]
    rw [show start + (end_ - start + 1) = end_ + 1 by omega]

/-! ## Claims about the worker loop -/

/-- C6 (the code at the failing input): `worker(2^64 - 1, 2^64 - 1)`, alone and
with the flag down.  After the one execution of the body that the range calls
for, `current` has wrapped to 0 and the loop condition still holds; and
whatever the bound on the number of steps, the loop has not stopped. -/
theorem worker_never_stops_at_max (cfg : Config) :
    (worker_iter cfg 1 (⟨U64 - 1, 0⟩, Shared.init)).1.current = 0 ∧
      worker_guard (U64 - 1) (worker_iter cfg 1 (⟨U64 - 1, 0⟩, Shared.init)).1
        (worker_iter cfg 1 (⟨U64 - 1, 0⟩, Shared.init)).2 = true ∧
      ∀ fuel, worker cfg fuel (U64 - 1) (U64 - 1) Shared.init = none := by
  have e : worker_iter cfg 1 (⟨U64 - 1, 0⟩, Shared.init) = (⟨0, 1⟩, Shared.init) := by
    rw [worker_iter, worker_iter, worker_body_eq]
    decide
  refine ⟨by rw [e], by rw [e]; decide, ?_⟩
  intro fuel
  exact worker_loop_max_end cfg fuel ⟨U64 - 1, 0⟩ Shared.init rfl (by decide)

/-- C9: a worker on `[start, end]` (64-bit, `start ≤ end`), alone, the flag
down and the counter at 0.  Whenever the loop stops, `total_checked` is
`10000 * floor(K / 10000)` for `K = end - start + 1`; and it does stop, within
`K + 1` evaluations of its condition, when `end < 2^64 - 1`. -/
theorem worker_total_checked (cfg : Config) (start end_ : Nat) (h1 : start ≤ end_)
    (h2 : end_ < U64) :
    (∀ fuel r, worker cfg fuel start end_ Shared.init = some r →
      r.2.total_checked = 10000 * ((end_ - start + 1) / 10000)) ∧
    (end_ < U64 - 1 → ∃ r, worker cfg (end_ - start + 2) start end_ Shared.init = some r) := by
  by_cases hmax : end_ < U64 - 1
  · have hrun := (worker_scans_in_order cfg start end_ h1 hmax).2
    refine ⟨?_, fun _ => ⟨_, hrun _ (Nat.le_refl _)⟩⟩
    intro fuel r hr
    have h3 := worker_loop_mono cfg end_ fuel ⟨start, 0⟩ Shared.init r (end_ - start + 2) hr
    have h4 := hrun (fuel + (end_ - start + 2)) (by omega)
    unfold worker at h4
    rw [h3] at h4
    rw [Option.some.inj h4]
  · have he : end_ = U64 - 1 := by omega
    refine ⟨?_, fun h => absurd h hmax⟩
    intro fuel r hr
    unfold worker at hr
    rw [he, worker_loop_max_end cfg fuel ⟨start, 0⟩ Shared.init rfl (by simp only []; omega)] at hr
    exact absurd hr (by simp)

/-- Witness of C9: the range `[5, 25006]`, of 25002 values, leaves
`total_checked` at 20000. -/
theorem worker_total_checked_witness :
    ((5 : Nat) ≤ 25006 ∧ 25006 < U64) ∧
    ((∀ fuel r, worker cfg_any fuel 5 25006 Shared.init = some r →
      r.2.total_checked = 10000 * ((25006 - 5 + 1) / 10000)) ∧
    (25006 < U64 - 1 → ∃ r, worker cfg_any (25006 - 5 + 2) 5 25006 Shared.init = some r)) :=
  ⟨by decide, worker_total_checked cfg_any 5 25006 (by decide) (by decide)⟩

/-! ## The interleaved program -/

theorem searching_init : searching System.init := by
  simp [searching, System.init, Shared.init, past_monitor_join]

theorem searching_main_step (cfg : Config) (s : System) (h : searching s) :
    searching (main_step cfg s) := by
  obtain ⟨h1, h2, h3, h4⟩ := h
  unfold main_step
  split
  · split <;> simp_all [searching, past_monitor_join]
  · split <;> simp_all [searching, past_monitor_join]
  · split
    · simp_all [searching, past_monitor_join]
    · split <;> simp_all [searching, past_monitor_join]
  · rw [if_neg h3]
    exact ⟨h1, h2, h3, h4⟩
  · simp_all [past_monitor_join]
  · exact ⟨h1, h2, h3, h4⟩
  · exact ⟨h1, h2, h3, h4⟩

theorem searching_monitor_step (s : System) (h : searching s) : searching (monitor_step s) := by
  obtain ⟨h1, h2, h3, h4⟩ := h
  unfold monitor_step
  split
  · simp only [h1, Bool.not_false, if_true]
    exact ⟨h1, h2, by simp, h4⟩
  · refine ⟨h1, ?_, by simp, h4⟩
    intro o ho
    simp only [List.mem_append, List.mem_singleton] at ho
    rcases ho with ho | ho
    · exact h2 o ho
    · exact ⟨_, ho⟩
  · exact ⟨h1, h2, h3, h4⟩
  · exact ⟨h1, h2, h3, h4⟩

theorem searching_worker_step (cfg : Config) (i : Nat) (s : System) (h : searching s) :
    searching (worker_step cfg i s) := by
  obtain ⟨h1, h2, h3, h4⟩ := h
  unfold worker_step
  split
  · exact ⟨h1, h2, h3, h4⟩
  · split
    · split <;> exact ⟨h1, h2, h3, h4⟩
    · rw [worker_check_eq]
      exact ⟨h1, h2, h3, h4⟩
    · refine ⟨?_, ?_, h3, h4⟩
      · simp only [worker_count_found, h1]
      · simp only [worker_count_out]
        exact h2
    · exact ⟨h1, h2, h3, h4⟩

theorem searching_step (cfg : Config) (s : System) (t : Tid) (h : searching s) :
    searching (step cfg s t) := by
  cases t with
  | main => exact searching_main_step cfg s h
  | monitor => exact searching_monitor_step s h
  | worker i => exact searching_worker_step cfg i s h

theorem searching_run (cfg : Config) (sched : List Tid) :
    ∀ s, searching s → searching (run cfg sched s) := by
  induction sched with
  | nil => intro s h; exact h
  | cons t sched ih =>
    intro s h
    exact ih _ (searching_step cfg s t h)

/-- The monitor returns only from a state in which the flag is up. -/
theorem monitor_stops_on_found (cfg : Config) (s : System) (t : Tid)
    (h : (step cfg s t).monitor = some MonitorPc.stopped) :
    s.monitor = some MonitorPc.stopped ∨ s.shared.found = true := by
  cases t with
  | main =>
    simp only [step, main_step] at h
    split at h
    · split at h <;> simp_all
    · split at h <;> simp_all
    · split at h
      · simp_all
      · split at h <;> simp_all
    · split at h <;> simp_all
    · split at h <;> simp_all
    · exact Or.inl h
    · exact Or.inl h
  | monitor =>
    simp only [step, monitor_step] at h
    split at h
    · split at h
      · simp at h
      · right; simp_all
    · simp at h
    · exact Or.inl h
    · exact Or.inl h
  | worker i =>
    simp only [step, worker_step] at h
    split at h
    · exact Or.inl h
    · split at h
      · split at h <;> exact Or.inl h
      · exact Or.inl h
      · exact Or.inl h
      · exact Or.inl h

/-! ## Claims about the whole search -/

set_option maxRecDepth 100000

/-- C7 (as the claim states it, refuted): in the scenario `[0, 50]`, 2 workers,
with a digest function that gives the key string of scalar 4 the target digest,
`is_valid_key` rejects that key string; when both workers have run to the end of
their ranges `[0, 24]` and `[25, 50]` the flag is down and nothing has been
reported; and under no schedule is the flag set. -/
theorem scenario_never_finds :
    (scenario digest_stub).result_hash (key_hex_of 4) = (scenario digest_stub).TARGET_HASH ∧
      is_valid_key (key_hex_of 4) = false ∧
      run (scenario digest_stub) (sched_seq 200 3) System.init =
        ⟨MainPc.join_monitor, some MonitorPc.at_guard, 0,
          [⟨24, ⟨25, 25⟩, WorkerPc.stopped⟩, ⟨50, ⟨51, 26⟩, WorkerPc.stopped⟩],
          ⟨0, false, []⟩⟩ ∧
      ¬ ∃ sched, (run (scenario digest_stub) sched System.init).shared.found = true := by
  refine ⟨rfl, by decide, by decide, ?_⟩
  rintro ⟨sched, h⟩
  have := (searching_run (scenario digest_stub) sched System.init searching_init).1
  rw [this] at h
  exact absurd h (by decide)

/-- C7 (amended): in the scenario `[0, 50]`, 2 workers, target digest equal to
the digest of the key string of scalar 4, whatever the digest function and the
schedule: the flag is never set and no key is ever reported. -/
theorem scenario_finds_nothing (result_hash : List Char → List Char) (sched : List Tid) :
    (run (scenario result_hash) sched System.init).shared.found = false ∧
      ∀ key_hex, Output.found_key key_hex ∉
        (run (scenario result_hash) sched System.init).shared.out := by
  have h := searching_run (scenario result_hash) sched System.init searching_init
  refine ⟨h.1, ?_⟩
  intro key_hex hmem
  obtain ⟨n, hn⟩ := h.2.1 _ hmem
  exact absurd hn (by simp)

/-- C8 (the code, refuted claim): whatever the configuration and the schedule,
`main` does not pass `monitor.join()` and the exhaustion message is not
written; this although, in the scenario `[0, 50]` with 2 workers, the state in
which every worker has exhausted its range with the flag down and `main` waits
at `monitor.join()` is reached, the monitor being still in its loop. -/
theorem main_never_passes_monitor_join (cfg : Config) (sched : List Tid) :
    (past_monitor_join (run cfg sched System.init) = false ∧
      Output.not_found ∉ (run cfg sched System.init).shared.out ∧
      (run cfg sched System.init).monitor ≠ some MonitorPc.stopped) ∧
    (workers_stopped (scenario digest_stub)
        (run (scenario digest_stub) (sched_seq 200 3) System.init) = true ∧
      (run (scenario digest_stub) (sched_seq 200 3) System.init).shared.found = false ∧
      (run (scenario digest_stub) (sched_seq 200 3) System.init).main = MainPc.join_monitor ∧
      (run (scenario digest_stub) (sched_seq 200 3) System.init).monitor =
        some MonitorPc.at_guard) := by
  have h := searching_run cfg sched System.init searching_init
  refine ⟨⟨h.2.2.2, ?_, h.2.2.1⟩, by decide⟩
  intro hmem
  obtain ⟨n, hn⟩ := h.2.1 _ hmem
  exact absurd hn (by simp)

/-! ## `bytes_to_hex` -/

set_option maxRecDepth 100000

theorem byte_two_digits : ∀ b, b < 256 →
    setw_fill 2 '0' (hex_digits 8 (b % 256)) = [hex_char (b / 16), hex_char (b % 16)] := by
  decide

theorem hex_char_inj {d e : Nat} (hd : d < 16) (he : e < 16) (h : hex_char d = hex_char e) :
    d = e := by
  rw [← (hex_char_spec d hd).2, ← (hex_char_spec e he).2, h]

theorem bytes_to_hex_loop_eq (data : List Nat) (hdata : ∀ b ∈ data, b < 256) (n : Nat) :
    ∀ (i : Nat) (ss : List Char), i + n ≤ data.length →
      bytes_to_hex_loop data n i ss = ss ++ hex_pairs ((data.drop i).take n) := by
  induction n with
  | zero => intro i ss _; simp [bytes_to_hex_loop, hex_pairs]
  | succ n ih =>
    intro i ss hi
    have hlt : i < data.length := by omega
    have hget : data.getD i 0 = data[i] := by
      rw [List.getD_eq_getElem?_getD, List.getElem?_eq_getElem hlt]; rfl
    have hb : data[i] < 256 := hdata _ (List.getElem_mem hlt)
    rw [bytes_to_hex_loop, ih (i + 1) _ (by omega), hget, byte_two_digits _ hb,
      List.drop_eq_getElem_cons hlt, List.take_succ_cons]
    simp [hex_pairs]

theorem bytes_to_hex_eq (data : List Nat) (hdata : ∀ b ∈ data, b < 256) :
    bytes_to_hex data data.length = hex_pairs data := by
  unfold bytes_to_hex
  rw [bytes_to_hex_loop_eq data hdata data.length 0 [] (by omega)]
  simp

theorem hex_pairs_length (data : List Nat) : (hex_pairs data).length = 2 * data.length := by
  induction data with
  | nil => rfl
  | cons b bs ih => simp only [hex_pairs, List.length_cons, ih]; omega

theorem hex_pairs_lower_hex (data : List Nat) (hdata : ∀ b ∈ data, b < 256) :
    ∀ ch ∈ hex_pairs data, is_lower_hex ch = true := by
  induction data with
  | nil => intro ch h; simp [hex_pairs] at h
  | cons b bs ih =>
    intro ch h
    have hb : b < 256 := hdata b (List.mem_cons_self _ _)
    simp only [hex_pairs, List.mem_cons] at h
    rcases h with h | h | h
    · rw [h]; exact (hex_char_spec (b / 16) (by omega)).1
    · rw [h]; exact (hex_char_spec (b % 16) (by omega)).1
    · exact ih (fun x hx => hdata x (List.mem_cons_of_mem _ hx)) ch h

theorem hex_pairs_at (data : List Nat) :
    ∀ i, i < data.length →
      at_ (hex_pairs data) (2 * i) = hex_char (data.getD i 0 / 16) ∧
      at_ (hex_pairs data) (2 * i + 1) = hex_char (data.getD i 0 % 16) := by
  induction data with
  | nil => intro i h; simp at h
  | cons b bs ih =>
    intro i hi
    cases i with
    | zero => simp [hex_pairs, at_]
    | succ i =>
      have := ih i (by simpa using hi)
      rw [show 2 * (i + 1) = 2 * i + 1 + 1 by omega]
      simpa [hex_pairs, at_] using this

theorem hex_pairs_inj (a : List Nat) :
    ∀ b : List Nat, (∀ x ∈ a, x < 256) → (∀ x ∈ b, x < 256) →
      hex_pairs a = hex_pairs b → a = b := by
  induction a with
  | nil =>
    intro b _ _ h
    cases b with
    | nil => rfl
    | cons y ys => simp [hex_pairs] at h
  | cons x xs ih =>
    intro b ha hb h
    cases b with
    | nil => simp [hex_pairs] at h
    | cons y ys =>
      simp only [hex_pairs, List.cons.injEq] at h
      have hx : x < 256 := ha x (List.mem_cons_self _ _)
      have hy : y < 256 := hb y (List.mem_cons_self _ _)
      have h1 := hex_char_inj (by omega) (by omega) h.1
      have h2 := hex_char_inj (Nat.mod_lt _ (by omega)) (Nat.mod_lt _ (by omega)) h.2.1
      have hxy : x = y := by omega
      rw [hxy, ih ys (fun z hz => ha z (List.mem_cons_of_mem _ hz))
        (fun z hz => hb z (List.mem_cons_of_mem _ hz)) h.2.2]

/-- C15: for every sequence of `n` bytes, `bytes_to_hex` returns `2n` lowercase
hex characters, characters `2i` and `2i+1` being the high and the low nibble of
byte `i`; two byte sequences of equal length have the same hex string exactly
when they are equal; and a 20-byte digest has the hex string `TARGET_HASH`
exactly when it is the byte sequence `TARGET_BYTES`. -/
theorem bytes_to_hex_spec (data : List Nat) (hdata : ∀ b ∈ data, b < 256) :
    (bytes_to_hex data data.length).length = 2 * data.length ∧
      (∀ ch ∈ bytes_to_hex data data.length, is_lower_hex ch = true) ∧
      (∀ i, i < data.length →
        at_ (bytes_to_hex data data.length) (2 * i) = hex_char (data.getD i 0 / 16) ∧
        at_ (bytes_to_hex data data.length) (2 * i + 1) = hex_char (data.getD i 0 % 16)) ∧
      (∀ other : List Nat, (∀ b ∈ other, b < 256) → other.length = data.length →
        (bytes_to_hex data data.length = bytes_to_hex other other.length ↔ data = other)) ∧
      (data.length = 20 → (bytes_to_hex data 20 = TARGET_HASH ↔ data = TARGET_BYTES)) := by
  rw [bytes_to_hex_eq data hdata]
  refine ⟨hex_pairs_length data, hex_pairs_lower_hex data hdata, hex_pairs_at data, ?_, ?_⟩
  · intro other hother _
    rw [bytes_to_hex_eq other hother]
    constructor
    · exact hex_pairs_inj data other hdata hother
    · intro h; rw [h]
  · intro hlen
    have ht : TARGET_HASH = hex_pairs TARGET_BYTES := by decide
    rw [← hlen, bytes_to_hex_eq data hdata, ht]
    constructor
    · exact hex_pairs_inj data TARGET_BYTES hdata (by decide)
    · intro h; rw [h]

/-- Witness of C15 on the 20 bytes of the target. -/
theorem bytes_to_hex_spec_witness :
    (∀ b ∈ TARGET_BYTES, b < 256) ∧ bytes_to_hex TARGET_BYTES 20 = TARGET_HASH ∧
    ((bytes_to_hex TARGET_BYTES TARGET_BYTES.length).length = 2 * TARGET_BYTES.length ∧
      (∀ ch ∈ bytes_to_hex TARGET_BYTES TARGET_BYTES.length, is_lower_hex ch = true) ∧
      (∀ i, i < TARGET_BYTES.length →
        at_ (bytes_to_hex TARGET_BYTES TARGET_BYTES.length) (2 * i) =
          hex_char (TARGET_BYTES.getD i 0 / 16) ∧
        at_ (bytes_to_hex TARGET_BYTES TARGET_BYTES.length) (2 * i + 1) =
          hex_char (TARGET_BYTES.getD i 0 % 16)) ∧
      (∀ other : List Nat, (∀ b ∈ other, b < 256) → other.length = TARGET_BYTES.length →
        (bytes_to_hex TARGET_BYTES TARGET_BYTES.length = bytes_to_hex other other.length ↔
          TARGET_BYTES = other)) ∧
      (TARGET_BYTES.length = 20 →
        (bytes_to_hex TARGET_BYTES 20 = TARGET_HASH ↔ TARGET_BYTES = TARGET_BYTES))) :=
  ⟨by decide, by decide, bytes_to_hex_spec TARGET_BYTES (by decide)⟩

/-! ## The configured constants -/

/-- C16 (as the claim states it, refuted): the length of `TARGET_HASH` is
exactly 40. -/
theorem target_hash_length_is_40 : ¬ (TARGET_HASH.length ≠ 40) := by
  decide

/-- C16 (amended): `TARGET_HASH` has exactly 40 characters, all lowercase hex
digits, and is the hex string of the 20 bytes `TARGET_BYTES`. -/
theorem target_hash_is_20_bytes :
    TARGET_HASH.length = 40 ∧ TARGET_HASH.all is_lower_hex = true ∧
      TARGET_BYTES.length = 20 ∧ (∀ b ∈ TARGET_BYTES, b < 256) ∧
      bytes_to_hex TARGET_BYTES 20 = TARGET_HASH := by
  decide

/-- C19: the two literals need 71 bits and do not fit `uint64_t`; converted,
`START_RANGE` is 0 and `END_RANGE` is `2^64 - 1`, so `main` partitions
`[0, 2^64 - 1]` and not `[2^70, 2^71 - 1]`: whatever the number `N ≥ 1` of
workers, the first worker starts at 0 and the last one ends at `2^64 - 1`. -/
theorem configured_range_is_whole_space (N : Nat) (hN1 : 1 ≤ N) :
    (START_RANGE_literal = 2 ^ 70 ∧ END_RANGE_literal = 2 ^ 71 - 1) ∧
      (U64 ≤ START_RANGE_literal ∧ U64 ≤ END_RANGE_literal) ∧
      (START_RANGE = 0 ∧ END_RANGE = 2 ^ 64 - 1) ∧
      thread_start START_RANGE END_RANGE N 0 = 0 ∧
      thread_end START_RANGE END_RANGE N (N - 1) = 2 ^ 64 - 1 := by
  refine ⟨by decide, by decide, by decide, ?_, ?_⟩
  · have h0 : START_RANGE = 0 := by decide
    simp [thread_start, add64, mul64, h0, U64]
  · rw [thread_end_last hN1]
    decide

/-- Witness of C19 with 4 workers. -/
theorem configured_range_is_whole_space_witness :
    (1 : Nat) ≤ 4 ∧ thread_range START_RANGE END_RANGE 4 3 =
        (13835058055282163709, 18446744073709551615) ∧
      ((START_RANGE_literal = 2 ^ 70 ∧ END_RANGE_literal = 2 ^ 71 - 1) ∧
        (U64 ≤ START_RANGE_literal ∧ U64 ≤ END_RANGE_literal) ∧
        (START_RANGE = 0 ∧ END_RANGE = 2 ^ 64 - 1) ∧
        thread_start START_RANGE END_RANGE 4 0 = 0 ∧
        thread_end START_RANGE END_RANGE 4 (4 - 1) = 2 ^ 64 - 1) :=
  ⟨by decide, by decide, configured_range_is_whole_space 4 (by decide)⟩

/-- C17: the key string of a counter has `'0'` at its first 48 positions, in
particular at index 46, so `is_valid_key` rejects it; lines 115-121 of the
worker then leave the globals as they are (`process_key` is not called), and
under no configuration and no schedule is the flag set. -/
theorem no_counter_passes_filter (cfg : Config) (c : Nat) (sched : List Tid) :
    at_ (key_hex_of c) 46 = '0' ∧ is_valid_key (key_hex_of c) = false ∧
      (∀ g, worker_check cfg ⟨c, 0⟩ g = g) ∧
      (run cfg sched System.init).shared.found = false := by
  refine ⟨key_hex_of_leading_zeros c 46 (by omega), is_valid_key_key_hex_of c, ?_, ?_⟩
  · intro g
    exact worker_check_eq cfg _ g
  · exact (searching_run cfg sched System.init searching_init).1

/-- C18: for `RANGE_START ≤ RANGE_END < 2^64`, `1 ≤ N < 2^31` and `per ≥ 1`,
the partition arithmetic equals the arithmetic on natural numbers:
`start_i = START + i * per ≤ RANGE_END` for `i < N`; for a worker that is not
the last, `end_i = start_i + per - 1`, `start_i ≤ end_i` and
`end_i + 1 = start_{i+1}`; the first range starts at `RANGE_START` and the last
ends at `RANGE_END`. -/
theorem partition_no_wrap (S E N : Nat) (hSE : S ≤ E) (hE : E < U64) (hN1 : 1 ≤ N)
    (hN : N < 2 ^ 31) (hper : 1 ≤ range_per_thread S E N) :
    range_per_thread S E N = (E - S) / N ∧
      (∀ i, i < N → thread_start S E N i = S + i * range_per_thread S E N ∧
        S + i * range_per_thread S E N ≤ E) ∧
      (∀ i, i + 1 < N →
        thread_end S E N i = thread_start S E N i + range_per_thread S E N - 1 ∧
        thread_start S E N i ≤ thread_end S E N i ∧
        thread_end S E N i + 1 = thread_start S E N (i + 1)) ∧
      thread_start S E N 0 = S ∧ thread_end S E N (N - 1) = E := by
  refine ⟨range_per_thread_eq hSE hE hN, ?_, ?_, ?_, thread_end_last hN1⟩
  · intro i hi
    have h1 := thread_start_eq hSE hE hN hi
    have h2 := (thread_start_le hSE hE hN hi).2
    rw [h1] at h2
    exact ⟨h1, h2⟩
  · intro i hi
    have h1 := thread_start_eq hSE hE hN (show i < N by omega)
    have h2 := thread_start_eq hSE hE hN hi
    have h3 := thread_end_succ hSE hE hN hi (Or.inl hper)
    have h4 : (i + 1) * range_per_thread S E N =
        i * range_per_thread S E N + range_per_thread S E N := by ring
    refine ⟨by omega, by omega, by omega⟩
  · have := thread_start_eq hSE hE hN (show 0 < N by omega)
    simpa using this

/-- Witness of C18: `[0, 50]` split between 2 workers. -/
theorem partition_no_wrap_witness :
    ((0 : Nat) ≤ 50 ∧ 50 < U64 ∧ 1 ≤ 2 ∧ 2 < 2 ^ 31 ∧ 1 ≤ range_per_thread 0 50 2) ∧
    (range_per_thread 0 50 2 = (50 - 0) / 2 ∧
      (∀ i, i < 2 → thread_start 0 50 2 i = 0 + i * range_per_thread 0 50 2 ∧
        0 + i * range_per_thread 0 50 2 ≤ 50) ∧
      (∀ i, i + 1 < 2 →
        thread_end 0 50 2 i = thread_start 0 50 2 i + range_per_thread 0 50 2 - 1 ∧
        thread_start 0 50 2 i ≤ thread_end 0 50 2 i ∧
        thread_end 0 50 2 i + 1 = thread_start 0 50 2 (i + 1)) ∧
      thread_start 0 50 2 0 = 0 ∧ thread_end 0 50 2 (2 - 1) = 50) :=
  ⟨by decide, partition_no_wrap 0 50 2 (by decide) (by decide) (by decide) (by decide)
    (by decide)⟩

/-! ## The scalar of an accepted key -/

theorem ite_le_of {p : Prop} [Decidable p] {a b n : Nat} (ha : a ≤ n) (hb : b ≤ n) :
    (if p then a else b) ≤ n := by
  split <;> assumption

theorem hex_val_le (c : Char) : hex_val c ≤ 15 := by
  unfold hex_val
  iterate 16 apply ite_le_of (by omega)
  omega

theorem hex_digit_value_le (c : Char) : hex_digit_value c ≤ 15 := by
  unfold hex_digit_value
  iterate 6 apply ite_le_of (by omega)
  exact hex_val_le c

theorem scalar_foldl_init (l : List Char) :
    ∀ a, l.foldl (fun acc ch => 16 * acc + hex_digit_value ch) a =
      a * 16 ^ l.length + l.foldl (fun acc ch => 16 * acc + hex_digit_value ch) 0 := by
  induction l with
  | nil => intro a; simp
  | cons c cs ih =>
    intro a
    rw [List.foldl_cons, List.foldl_cons, ih (16 * a + hex_digit_value c),
      ih (16 * 0 + hex_digit_value c), List.length_cons, pow_succ]
    ring

theorem scalar_of_lt (l : List Char) : scalar_of l < 16 ^ l.length := by
  unfold scalar_of
  induction l with
  | nil => simp
  | cons c cs ih =>
    rw [List.foldl_cons, scalar_foldl_init, List.length_cons, pow_succ]
    have := hex_digit_value_le c
    have h16 : 0 < 16 ^ cs.length := pow_pos (by norm_num) _
    nlinarith

theorem scalar_of_zeros (l : List Char) (h : ∀ ch ∈ l, ch = '0') : scalar_of l = 0 := by
  unfold scalar_of
  induction l with
  | nil => rfl
  | cons c cs ih =>
    rw [List.foldl_cons, h c (List.mem_cons_self _ _)]
    exact ih (fun ch hch => h ch (List.mem_cons_of_mem _ hch))

theorem scalar_of_append (xs ys : List Char) :
    scalar_of (xs ++ ys) = scalar_of xs * 16 ^ ys.length + scalar_of ys := by
  unfold scalar_of
  rw [List.foldl_append, scalar_foldl_init]

theorem at_eq_getElem (s : List Char) (i : Nat) (h : i < s.length) : at_ s i = s[i] := by
  unfold at_
  rw [List.getD_eq_getElem?_getD, List.getElem?_eq_getElem h]
  rfl

/-- The scalar of an accepted key is `d * 16^17 + r` with `d` the digit at
index 46 and `r < 16^17`. -/
theorem scalar_of_accepted (s : List Char) (hok : is_valid_key s = true) :
    ∃ r, r < 16 ^ 17 ∧ scalar_of s = hex_digit_value (at_ s 46) * 16 ^ 17 + r := by
  obtain ⟨hlen, hzero, -, -⟩ := (is_valid_key_iff s).1 hok
  have h46 : 46 < s.length := by omega
  have hsplit : s = s.take 46 ++ (s[46] :: s.drop 47) := by
    rw [← List.drop_eq_getElem_cons, List.take_append_drop]
  have hz : scalar_of (s.take 46) = 0 := by
    apply scalar_of_zeros
    intro ch hch
    obtain ⟨i, hi, rfl⟩ := List.mem_iff_getElem.1 hch
    have hi46 : i < 46 := by
      rw [List.length_take] at hi
      omega
    rw [List.getElem_take, ← at_eq_getElem s i (by omega)]
    exact hzero i hi46
  have hl : (s.drop 47).length = 17 := by rw [List.length_drop]; omega
  refine ⟨scalar_of (s.drop 47), by rw [← hl]; exact scalar_of_lt _, ?_⟩
  have hcons : scalar_of (s[46] :: s.drop 47) =
      hex_digit_value s[46] * 16 ^ 17 + scalar_of (s.drop 47) := by
    have := scalar_of_append [s[46]] (s.drop 47)
    rw [hl] at this
    simpa [scalar_of] using this
  rw [at_eq_getElem s 46 (by omega)]
  conv_lhs => rw [hsplit]
  rw [scalar_of_append, hz, hcons]
  omega

/-- C14: a string that `is_valid_key` accepts, in particular a 64-character
string of hex digits, denotes a number in
`[0x400000000000000000, 0x7fffffffffffffffff] = [2^70, 2^71 - 1]`, which is
not zero and lies below the order of secp256k1. -/
theorem accepted_scalar_range (s : List Char) (hok : is_valid_key s = true) :
    s.length = 64 ∧ 0x400000000000000000 ≤ scalar_of s ∧
      scalar_of s ≤ 0x7fffffffffffffffff ∧ (0x400000000000000000 : Nat) = 2 ^ 70 ∧
      (0x7fffffffffffffffff : Nat) = 2 ^ 71 - 1 ∧ scalar_of s ≠ 0 ∧
      scalar_of s < secp256k1_order := by
  obtain ⟨r, hr, hs⟩ := scalar_of_accepted s hok
  obtain ⟨hlen, -, hd, -⟩ := (is_valid_key_iff s).1 hok
  have hdv : 4 ≤ hex_digit_value (at_ s 46) ∧ hex_digit_value (at_ s 46) ≤ 7 := by
    rcases hd with h | h | h | h <;> rw [h] <;> decide
  have h17 : (16 : Nat) ^ 17 = 295147905179352825856 := by norm_num
  have hord : secp256k1_order =
      115792089237316195423570985008687907852837564279074904382605163141518161494337 := by
    unfold secp256k1_order; norm_num
  rw [h17] at hr hs
  refine ⟨hlen, ?_, ?_, by norm_num, by norm_num, ?_, ?_⟩ <;> omega

/-- Witness of C14 on the key `key_accepted`. -/
theorem accepted_scalar_range_witness :
    ((∀ ch ∈ key_accepted, is_hex_digit ch = true) ∧ is_valid_key key_accepted = true) ∧
    (key_accepted.length = 64 ∧ 0x400000000000000000 ≤ scalar_of key_accepted ∧
      scalar_of key_accepted ≤ 0x7fffffffffffffffff ∧ (0x400000000000000000 : Nat) = 2 ^ 70 ∧
      (0x7fffffffffffffffff : Nat) = 2 ^ 71 - 1 ∧ scalar_of key_accepted ≠ 0 ∧
      scalar_of key_accepted < secp256k1_order) :=
  ⟨by decide, accepted_scalar_range key_accepted (by decide)⟩

/-! ## The digest of `process_key` -/

/-- C11 (the code): in a library in which, as in OpenSSL,
`EC_KEY_set_private_key` leaves the public point and the group of the key
object as they were, the digest that `process_key` compares with the target is
the digest of the encoding of the public point of the newly made key object: it
is the same for every key, and no multiplication of the base point enters. -/
theorem digest_ignores_key (L : OpenSSL Key Group Point)
    (hpub : ∀ k bn, L.EC_KEY_get0_public_key (L.EC_KEY_set_private_key k bn).1 =
      L.EC_KEY_get0_public_key k)
    (hgrp : ∀ k bn, L.EC_KEY_get0_group (L.EC_KEY_set_private_key k bn).1 =
      L.EC_KEY_get0_group k)
    (key_hex : List Char) :
    result_hash_of L key_hex =
        bytes_to_hex (L.RIPEMD160 (L.SHA256
          (L.EC_POINT_point2oct (L.EC_KEY_get0_group L.EC_KEY_new_by_curve_name)
            (L.EC_KEY_get0_public_key L.EC_KEY_new_by_curve_name)))) 20 ∧
      ∀ other : List Char, result_hash_of L other = result_hash_of L key_hex := by
  have h : ∀ k : List Char, result_hash_of L k =
      bytes_to_hex (L.RIPEMD160 (L.SHA256
        (L.EC_POINT_point2oct (L.EC_KEY_get0_group L.EC_KEY_new_by_curve_name)
          (L.EC_KEY_get0_public_key L.EC_KEY_new_by_curve_name)))) 20 := by
    intro k
    unfold result_hash_of pub_key_bytes eckey_of
    rw [hpub, hgrp]
  refine ⟨h key_hex, ?_⟩
  intro other
  rw [h other, h key_hex]

/-- Witness of C11 (the code) in the library `lib_unset`, on the accepted key
`key_accepted`: the public point is null after the private key is set, the
digest of `process_key` is that of an empty encoding, and it is not the digest
of the encoding of the multiple of the base point. -/
theorem digest_ignores_key_witness :
    (is_valid_key key_accepted = true ∧
      lib_unset.EC_KEY_get0_public_key (eckey_of lib_unset key_accepted) = none ∧
      result_hash_of lib_unset key_accepted = zeros_40 ∧
      explicit_digest lib_unset key_accepted ≠ result_hash_of lib_unset key_accepted) ∧
    (result_hash_of lib_unset key_accepted =
        bytes_to_hex (lib_unset.RIPEMD160 (lib_unset.SHA256
          (lib_unset.EC_POINT_point2oct
            (lib_unset.EC_KEY_get0_group lib_unset.EC_KEY_new_by_curve_name)
            (lib_unset.EC_KEY_get0_public_key lib_unset.EC_KEY_new_by_curve_name)))) 20 ∧
      ∀ other : List Char,
        result_hash_of lib_unset other = result_hash_of lib_unset key_accepted) :=
  ⟨by decide, digest_ignores_key lib_unset (fun _ _ => rfl) (fun _ _ => rfl) key_accepted⟩

end BitcoinMiner
